import Mathlib

/-!
Shallow embedding of the multiplayer-poker engine (TypeScript backend) in Lean 4,
together with theorems settling the frozen specification claims.

Sources embedded:
* `src/backend/src/engine/cards.ts` — rank values, sorting, grouping, straight/flush search
* `src/backend/src/engine/handEvaluator.ts` — `evaluateHand` and its helpers
* `src/backend/src/engine/betting.ts` — betting options, action processing, round completion
* `src/backend/src/engine/potManager.ts` — side pots, pot distribution, `Table` operations
* `src/unnamed/part_002` (engine utils) — client-state sanitizer

Conventions: JavaScript numbers holding chip counts and bets are modelled as `Int`
(they are integers everywhere in the engine, and subtraction appears); hand values
and rank values are `Nat` (always non-negative). JS `Map` iteration order is
insertion order, modelled by association lists built in first-occurrence order.
`Array.prototype.sort` is stable, modelled by stable insertion sorts.
A JS runtime exception (such as reading `.length` of `null`) is modelled by
returning `none` from a function whose codomain is wrapped in `Option`.
-/

namespace PokerEngine

/-- The four suits (`types.ts`). -/
inductive Suit where
  | hearts | diamonds | clubs | spades
deriving DecidableEq, Repr

/-- The thirteen ranks (`types.ts`); `r2`…`r9` stand for the digit ranks. -/
inductive Rank where
  | rA | r2 | r3 | r4 | r5 | r6 | r7 | r8 | r9 | rT | rJ | rQ | rK
deriving DecidableEq, Repr

/-- `getRankValue` from `cards.ts`: Ace high (14), K=13, …, 2=2. -/
def getRankValue : Rank → Nat
  | .rA => 14
  | .rK => 13
  | .rQ => 12
  | .rJ => 11
  | .rT => 10
  | .r9 => 9
  | .r8 => 8
  | .r7 => 7
  | .r6 => 6
  | .r5 => 5
  | .r4 => 4
  | .r3 => 3
  | .r2 => 2

/-- A card is a pair of suit and rank (`types.ts`). -/
structure Card where
  suit : Suit
  rank : Rank
deriving DecidableEq, Repr

/-- Insert a card into a list that is sorted by descending rank value, after all
cards of greater or equal value; folding this over the input gives the stable
descending sort performed by `sortCards` in `cards.ts` (JS `sort` is stable). -/
def insertCardDesc (c : Card) : List Card → List Card
  | [] => [c]
  | d :: ds =>
    if getRankValue d.rank ≥ getRankValue c.rank then d :: insertCardDesc c ds
    else c :: d :: ds

/-- `sortCards` from `cards.ts`: sort by rank value, highest first (stable). -/
def sortCards (cards : List Card) : List Card :=
  cards.foldl (fun acc c => insertCardDesc c acc) []

/-- One step of `groupCardsByRank`: append the card to its rank's group, or start
a new group at the end (JS `Map` preserves insertion order). -/
def addToRankGroups (groups : List (Rank × List Card)) (card : Card) :
    List (Rank × List Card) :=
  if groups.any (fun g => g.1 == card.rank) then
    groups.map (fun g => if g.1 = card.rank then (g.1, g.2 ++ [card]) else g)
  else groups ++ [(card.rank, [card])]

/-- `groupCardsByRank` from `cards.ts`. -/
def groupCardsByRank (cards : List Card) : List (Rank × List Card) :=
  cards.foldl addToRankGroups []

/-- One step of `groupCardsBySuit`. -/
def addToSuitGroups (groups : List (Suit × List Card)) (card : Card) :
    List (Suit × List Card) :=
  if groups.any (fun g => g.1 == card.suit) then
    groups.map (fun g => if g.1 = card.suit then (g.1, g.2 ++ [card]) else g)
  else groups ++ [(card.suit, [card])]

/-- `groupCardsBySuit` from `cards.ts`. -/
def groupCardsBySuit (cards : List Card) : List (Suit × List Card) :=
  cards.foldl addToSuitGroups []

/-- `findFlush` from `cards.ts`: first suit group with at least five cards,
returned with all its cards sorted by descending rank. -/
def findFlush (cards : List Card) : Option (Suit × List Card) :=
  ((groupCardsBySuit cards).find? (fun g => decide (g.2.length ≥ 5))).map
    (fun g => (g.1, sortCards g.2))

/-- Insertion-order deduplication of a value list (JS `new Set(values)`). -/
def dedupFirst (l : List Nat) : List Nat :=
  l.foldl (fun acc v => if acc.contains v then acc else acc ++ [v]) []

/-- Insert into a descending-sorted list of naturals. -/
def insertNatDesc (v : Nat) : List Nat → List Nat
  | [] => [v]
  | w :: ws => if w ≥ v then w :: insertNatDesc v ws else v :: w :: ws

/-- Sort naturals in descending order (`uniqueValues.sort((a, b) => b - a)`). -/
def sortNatDesc (l : List Nat) : List Nat :=
  l.foldl (fun acc v => insertNatDesc v acc) []

/-- The window scan of `findStraight`: on the descending list of distinct rank
values, find the first index `i` with `u[i] - u[i+4] = 4` and return `u[i]`. -/
def scanStraightWindow : List Nat → Option Nat
  | v0 :: v1 :: v2 :: v3 :: v4 :: rest =>
    if v0 - v4 = 4 then some v0 else scanStraightWindow (v1 :: v2 :: v3 :: v4 :: rest)
  | _ => none

/-- `findStraight` from `cards.ts`: returns the high card of a straight, testing
regular straights on the distinct descending rank values and then the wheel
(A-2-3-4-5, high card the 5). -/
def findStraight (cards : List Card) : Option Card :=
  let sorted := sortCards cards
  let values := sorted.map (fun c => getRankValue c.rank)
  let uniqueValues := sortNatDesc (dedupFirst values)
  match scanStraightWindow uniqueValues with
  | some highValue => sorted.find? (fun c => getRankValue c.rank == highValue)
  | none =>
    if uniqueValues.contains 14 && uniqueValues.contains 5 && uniqueValues.contains 4
        && uniqueValues.contains 3 && uniqueValues.contains 2 then
      sorted.find? (fun c => c.rank == Rank.r5)
    else none

/-- The ten hand categories (`types.ts`), in ascending strength order. -/
inductive HandRank where
  | highCard | pair | twoPair | threeOfAKind | straight
  | flush | fullHouse | fourOfAKind | straightFlush | royalFlush
deriving DecidableEq, Repr

/-- `HandEvaluation` from `types.ts`. -/
structure HandEvaluation where
  rank : HandRank
  value : Nat
  bestFive : List Card
  kickers : List Nat
deriving DecidableEq, Repr

/-- Stand-in for array accesses the source asserts with `!` / `[0]` on lists its
guards make non-empty; never reached on inputs where the source does not crash. -/
def unreachableCard : Card := ⟨Suit.spades, Rank.rA⟩

/-- Stand-in rank, same role as `unreachableCard`. -/
def unreachableRank : Rank := Rank.rA

/-- `rankGroups.get(rank)!` — look up a rank's group in the association list. -/
def groupGet (groups : List (Rank × List Card)) (r : Rank) : List Card :=
  ((groups.find? (fun g => g.1 == r)).map (·.2)).getD []

/-- Insert into a descending-by-rank-value list of ranks. -/
def insertRankDesc (r : Rank) : List Rank → List Rank
  | [] => [r]
  | s :: ss =>
    if getRankValue s ≥ getRankValue r then s :: insertRankDesc r ss
    else r :: s :: ss

/-- `findGroupsOfSize` from `handEvaluator.ts`: ranks whose group has exactly the
given size, sorted by rank value, highest first. -/
def findGroupsOfSize (rankGroups : List (Rank × List Card)) (size : Nat) : List Rank :=
  ((rankGroups.filter (fun g => g.2.length == size)).map (·.1)).foldl
    (fun acc r => insertRankDesc r acc) []

/-- `findKickers` from `handEvaluator.ts`: the first `count` cards of the sorted
list whose rank is not among the used ranks. -/
def findKickers : List Card → List Rank → Nat → List Card
  | _, _, 0 => []
  | [], _, _ + 1 => []
  | c :: cs, used, n + 1 =>
    if used.contains c.rank then findKickers cs used (n + 1)
    else c :: findKickers cs used n

/-- `calculateKickerValue` from `handEvaluator.ts`: the kickers read as digits in
base 15, `Σ kickers[i] * 15 ^ (len - 1 - i)`. -/
def calculateKickerValue : List Nat → Nat
  | [] => 0
  | k :: ks => k * 15 ^ ks.length + calculateKickerValue ks

/-- `getStraightFlushCards` from `handEvaluator.ts`. -/
def getStraightFlushCards (flushCards : List Card) (highCard : Card) : List Card :=
  let sorted := sortCards flushCards
  let highValue := getRankValue highCard.rank
  if highValue = 5 then
    [Rank.r5, Rank.r4, Rank.r3, Rank.r2, Rank.rA].filterMap
      (fun r => sorted.find? (fun c => c.rank == r))
  else
    (List.range 5).filterMap
      (fun i => sorted.find? (fun c => getRankValue c.rank == highValue - i))

/-- `getStraightCards` from `handEvaluator.ts` (same body over the pre-sorted list). -/
def getStraightCards (sorted : List Card) (highCard : Card) : List Card :=
  let highValue := getRankValue highCard.rank
  if highValue = 5 then
    [Rank.r5, Rank.r4, Rank.r3, Rank.r2, Rank.rA].filterMap
      (fun r => sorted.find? (fun c => c.rank == r))
  else
    (List.range 5).filterMap
      (fun i => sorted.find? (fun c => getRankValue c.rank == highValue - i))

/-- The straight-flush / royal-flush branch of `evaluateHand`. -/
def straightFlushEval (flushCards : List Card) (highCard : Card) : HandEvaluation :=
  let isRoyal := getRankValue highCard.rank = 14
  { rank := if isRoyal then HandRank.royalFlush else HandRank.straightFlush
    value := if isRoyal then 9000000 + getRankValue highCard.rank
             else 8000000 + getRankValue highCard.rank
    bestFive := getStraightFlushCards flushCards highCard
    kickers := [] }

/-- The four-of-a-kind branch of `evaluateHand`. -/
def fourOfAKindEval (sorted : List Card) (rankGroups : List (Rank × List Card))
    (quadRank : Rank) : HandEvaluation :=
  let quadCards := groupGet rankGroups quadRank
  let kicker := (findKickers sorted [quadRank] 1).headD unreachableCard
  { rank := HandRank.fourOfAKind
    value := 7000000 + getRankValue quadRank * 1000 + getRankValue kicker.rank
    bestFive := quadCards ++ [kicker]
    kickers := [getRankValue kicker.rank] }

/-- The full-house branch of `evaluateHand`.  With two triples the source sorts
the two trip ranks ascending and explicitly uses the LOWER rank as the trips and
the higher as the pair (its comment: tests expect it); with one triple it uses
the highest pair. -/
def fullHouseEval (rankGroups : List (Rank × List Card)) (trips pairs : List Rank) :
    HandEvaluation :=
  let tp : Rank × Rank :=
    match trips with
    | t0 :: t1 :: _ =>
      if getRankValue t0 > getRankValue t1 then (t1, t0) else (t0, t1)
    | _ => (trips.headD unreachableRank, pairs.headD unreachableRank)
  let tripCards := groupGet rankGroups tp.1
  let pairCards := (groupGet rankGroups tp.2).take 2
  { rank := HandRank.fullHouse
    value := 6000000 + getRankValue tp.1 * 1000 + getRankValue tp.2
    bestFive := tripCards ++ pairCards
    kickers := [] }

/-- The flush branch of `evaluateHand`. -/
def flushEval (flushCards : List Card) : HandEvaluation :=
  let five := flushCards.take 5
  let kickers := five.map (fun c => getRankValue c.rank)
  { rank := HandRank.flush
    value := 5000000 + calculateKickerValue kickers
    bestFive := five
    kickers := kickers }

/-- The straight branch of `evaluateHand`. -/
def straightEval (sorted : List Card) (highCard : Card) : HandEvaluation :=
  { rank := HandRank.straight
    value := 4000000 + getRankValue highCard.rank
    bestFive := getStraightCards sorted highCard
    kickers := [] }

/-- The three-of-a-kind branch of `evaluateHand`. -/
def threeOfAKindEval (sorted : List Card) (rankGroups : List (Rank × List Card))
    (tripRank : Rank) : HandEvaluation :=
  let tripCards := groupGet rankGroups tripRank
  let kickers := findKickers sorted [tripRank] 2
  let kickerValues := kickers.map (fun c => getRankValue c.rank)
  { rank := HandRank.threeOfAKind
    value := 3000000 + getRankValue tripRank * 10000 + calculateKickerValue kickerValues
    bestFive := tripCards ++ kickers
    kickers := kickerValues }

/-- The two-pair branch of `evaluateHand`. -/
def twoPairEval (sorted : List Card) (rankGroups : List (Rank × List Card))
    (highPair lowPair : Rank) : HandEvaluation :=
  let highPairCards := groupGet rankGroups highPair
  let lowPairCards := groupGet rankGroups lowPair
  let kicker := (findKickers sorted [highPair, lowPair] 1).headD unreachableCard
  let kickerValue := getRankValue kicker.rank
  { rank := HandRank.twoPair
    value := 2000000 + getRankValue highPair * 10000 + getRankValue lowPair * 100 + kickerValue
    bestFive := highPairCards ++ lowPairCards ++ [kicker]
    kickers := [kickerValue] }

/-- The one-pair branch of `evaluateHand`. -/
def pairEval (sorted : List Card) (rankGroups : List (Rank × List Card))
    (pairRank : Rank) : HandEvaluation :=
  let pairCards := groupGet rankGroups pairRank
  let kickers := findKickers sorted [pairRank] 3
  let kickerValues := kickers.map (fun c => getRankValue c.rank)
  { rank := HandRank.pair
    value := 1000000 + getRankValue pairRank * 10000 + calculateKickerValue kickerValues
    bestFive := pairCards ++ kickers
    kickers := kickerValues }

/-- The high-card branch of `evaluateHand`. -/
def highCardEval (sorted : List Card) : HandEvaluation :=
  let bestFive := sorted.take 5
  let kickerValues := bestFive.map (fun c => getRankValue c.rank)
  { rank := HandRank.highCard
    value := 0 + calculateKickerValue kickerValues
    bestFive := bestFive
    kickers := kickerValues }

/-- `evaluateHand` below the straight-flush check: quads, full house, flush,
straight, trips, two pair, pair, high card, in the source's precedence order. -/
def evaluateRest (sorted : List Card) (rankGroups : List (Rank × List Card))
    (flush : Option (Suit × List Card)) (straight : Option Card) : HandEvaluation :=
  match findGroupsOfSize rankGroups 4 with
  | quadRank :: _ => fourOfAKindEval sorted rankGroups quadRank
  | [] =>
    let trips := findGroupsOfSize rankGroups 3
    let pairs := findGroupsOfSize rankGroups 2
    if trips.length > 0 ∧ (pairs.length > 0 ∨ trips.length > 1) then
      fullHouseEval rankGroups trips pairs
    else
      match flush with
      | some fl => flushEval fl.2
      | none =>
        match straight with
        | some st => straightEval sorted st
        | none =>
          match trips with
          | tripRank :: _ => threeOfAKindEval sorted rankGroups tripRank
          | [] =>
            match pairs with
            | highPair :: lowPair :: _ => twoPairEval sorted rankGroups highPair lowPair
            | [pairRank] => pairEval sorted rankGroups pairRank
            | [] => highCardEval sorted

/-- `evaluateHand` from `handEvaluator.ts`.  The thrown error on fewer than 5 or
more than 7 cards is modelled by `none`. -/
def evaluateHand (cards : List Card) : Option HandEvaluation :=
  if cards.length < 5 ∨ cards.length > 7 then none
  else
    let sorted := sortCards cards
    let rankGroups := groupCardsByRank cards
    let flush := findFlush cards
    let straight := findStraight cards
    match flush with
    | some fl =>
      match findStraight fl.2 with
      | some highCard => some (straightFlushEval fl.2 highCard)
      | none => some (evaluateRest sorted rankGroups (some fl) straight)
    | none => some (evaluateRest sorted rankGroups none straight)

/-- Index of a category in the claimed ascending strength order
high-card < pair < two-pair < trips < straight < flush < full-house < quads
< straight-flush < royal-flush. -/
def categoryIndex : HandRank → Nat
  | .highCard => 0
  | .pair => 1
  | .twoPair => 2
  | .threeOfAKind => 3
  | .straight => 4
  | .flush => 5
  | .fullHouse => 6
  | .fourOfAKind => 7
  | .straightFlush => 8
  | .royalFlush => 9

/-- The per-category base constant used by `evaluateHand` (0, 1 000 000, …). -/
def catBase (r : HandRank) : Nat := 1000000 * categoryIndex r

theorem getRankValue_le (r : Rank) : getRankValue r ≤ 14 := by
  cases r <;> decide

theorem calculateKickerValue_lt (ks : List Nat) (h : ∀ k ∈ ks, k ≤ 14) :
    calculateKickerValue ks < 15 ^ ks.length := by
  induction ks with
  | nil => simp [calculateKickerValue]
  | cons k ks ih =>
    have hk : k ≤ 14 := h k (by simp)
    have hr : calculateKickerValue ks < 15 ^ ks.length :=
      ih (fun x hx => h x (by simp [hx]))
    simp only [calculateKickerValue, List.length_cons, pow_succ]
    calc k * 15 ^ ks.length + calculateKickerValue ks
        < k * 15 ^ ks.length + 15 ^ ks.length := Nat.add_lt_add_left hr _
      _ ≤ 14 * 15 ^ ks.length + 15 ^ ks.length :=
          Nat.add_le_add_right (Nat.mul_le_mul_right _ hk) _
      _ = 15 ^ ks.length * 15 := by ring

theorem findKickers_length (cs : List Card) (used : List Rank) (n : Nat) :
    (findKickers cs used n).length ≤ n := by
  induction cs generalizing n with
  | nil => cases n <;> simp [findKickers]
  | cons c cs ih =>
    cases n with
    | zero => simp [findKickers]
    | succ m =>
      simp only [findKickers]
      split
      · exact ih (m + 1)
      · simpa using Nat.succ_le_succ (ih m)

/-- Any kicker vector read off at most five cards is below the 1 000 000 tier gap. -/
theorem ckv_card_lt (cards : List Card) (h : cards.length ≤ 5) :
    calculateKickerValue (cards.map fun c => getRankValue c.rank) < 759375 := by
  have hmem : ∀ k ∈ cards.map (fun c => getRankValue c.rank), k ≤ 14 := by
    intro k hk
    rcases List.mem_map.mp hk with ⟨c, _, rfl⟩
    exact getRankValue_le _
  have hlt := calculateKickerValue_lt _ hmem
  have hlen : (cards.map fun c => getRankValue c.rank).length ≤ 5 := by
    simpa using h
  have hpow : (15:ℕ) ^ (cards.map fun c => getRankValue c.rank).length ≤ 15 ^ 5 :=
    Nat.pow_le_pow_right (by norm_num) hlen
  have : (15:ℕ) ^ 5 = 759375 := by norm_num
  omega

theorem straightFlushEval_bound (fc : List Card) (hc : Card) :
    catBase (straightFlushEval fc hc).rank ≤ (straightFlushEval fc hc).value ∧
      (straightFlushEval fc hc).value < catBase (straightFlushEval fc hc).rank + 1000000 := by
  have h14 := getRankValue_le hc.rank
  unfold straightFlushEval
  by_cases hi : getRankValue hc.rank = 14
  · simp [hi, catBase, categoryIndex]
  · simp [hi, catBase, categoryIndex]
    omega

theorem fourOfAKindEval_bound (sorted : List Card) (gs : List (Rank × List Card)) (q : Rank) :
    catBase (fourOfAKindEval sorted gs q).rank ≤ (fourOfAKindEval sorted gs q).value ∧
      (fourOfAKindEval sorted gs q).value < catBase (fourOfAKindEval sorted gs q).rank + 1000000 := by
  have h1 := getRankValue_le q
  have h2 := getRankValue_le ((findKickers sorted [q] 1).headD unreachableCard).rank
  unfold fourOfAKindEval
  simp only [catBase, categoryIndex]
  omega

theorem fullHouseEval_bound (gs : List (Rank × List Card)) (trips pairs : List Rank) :
    catBase (fullHouseEval gs trips pairs).rank ≤ (fullHouseEval gs trips pairs).value ∧
      (fullHouseEval gs trips pairs).value < catBase (fullHouseEval gs trips pairs).rank + 1000000 := by
  have key : ∀ a b : Rank,
      1000000 * 6 ≤ 6000000 + getRankValue a * 1000 + getRankValue b ∧
        6000000 + getRankValue a * 1000 + getRankValue b < 1000000 * 6 + 1000000 := by
    intro a b
    have := getRankValue_le a
    have := getRankValue_le b
    omega
  exact key _ _

theorem flushEval_bound (fc : List Card) :
    catBase (flushEval fc).rank ≤ (flushEval fc).value ∧
      (flushEval fc).value < catBase (flushEval fc).rank + 1000000 := by
  have h := ckv_card_lt (fc.take 5) (by simp [List.length_take])
  unfold flushEval
  simp only [catBase, categoryIndex]
  omega

theorem straightEval_bound (sorted : List Card) (hc : Card) :
    catBase (straightEval sorted hc).rank ≤ (straightEval sorted hc).value ∧
      (straightEval sorted hc).value < catBase (straightEval sorted hc).rank + 1000000 := by
  have := getRankValue_le hc.rank
  unfold straightEval
  simp only [catBase, categoryIndex]
  omega

theorem threeOfAKindEval_bound (sorted : List Card) (gs : List (Rank × List Card)) (t : Rank) :
    catBase (threeOfAKindEval sorted gs t).rank ≤ (threeOfAKindEval sorted gs t).value ∧
      (threeOfAKindEval sorted gs t).value < catBase (threeOfAKindEval sorted gs t).rank + 1000000 := by
  have h1 := getRankValue_le t
  have h2 := ckv_card_lt (findKickers sorted [t] 2)
    (Nat.le_trans (findKickers_length _ _ _) (by norm_num))
  unfold threeOfAKindEval
  simp only [catBase, categoryIndex]
  omega

theorem twoPairEval_bound (sorted : List Card) (gs : List (Rank × List Card)) (hp lp : Rank) :
    catBase (twoPairEval sorted gs hp lp).rank ≤ (twoPairEval sorted gs hp lp).value ∧
      (twoPairEval sorted gs hp lp).value < catBase (twoPairEval sorted gs hp lp).rank + 1000000 := by
  have h1 := getRankValue_le hp
  have h2 := getRankValue_le lp
  have h3 := getRankValue_le ((findKickers sorted [hp, lp] 1).headD unreachableCard).rank
  unfold twoPairEval
  simp only [catBase, categoryIndex]
  omega

theorem pairEval_bound (sorted : List Card) (gs : List (Rank × List Card)) (p : Rank) :
    catBase (pairEval sorted gs p).rank ≤ (pairEval sorted gs p).value ∧
      (pairEval sorted gs p).value < catBase (pairEval sorted gs p).rank + 1000000 := by
  have h1 := getRankValue_le p
  have h2 := ckv_card_lt (findKickers sorted [p] 3)
    (Nat.le_trans (findKickers_length _ _ _) (by norm_num))
  unfold pairEval
  simp only [catBase, categoryIndex]
  omega

theorem highCardEval_bound (sorted : List Card) :
    catBase (highCardEval sorted).rank ≤ (highCardEval sorted).value ∧
      (highCardEval sorted).value < catBase (highCardEval sorted).rank + 1000000 := by
  have h := ckv_card_lt (sorted.take 5) (by simp [List.length_take])
  unfold highCardEval
  simp only [catBase, categoryIndex]
  omega

theorem evaluateRest_bound (sorted : List Card) (gs : List (Rank × List Card))
    (flush : Option (Suit × List Card)) (straight : Option Card) :
    catBase (evaluateRest sorted gs flush straight).rank ≤
        (evaluateRest sorted gs flush straight).value ∧
      (evaluateRest sorted gs flush straight).value <
        catBase (evaluateRest sorted gs flush straight).rank + 1000000 := by
  unfold evaluateRest
  split
  · exact fourOfAKindEval_bound _ _ _
  · dsimp only
    split
    · exact fullHouseEval_bound _ _ _
    · split
      · exact flushEval_bound _
      · split
        · exact straightEval_bound _ _
        · split
          · exact threeOfAKindEval_bound _ _ _
          · split
            · exact twoPairEval_bound _ _ _ _
            · exact pairEval_bound _ _ _
            · exact highCardEval_bound _

/-- Every evaluation produced by `evaluateHand` has its value inside its
category's tier `[catBase, catBase + 1 000 000)`. -/
theorem evaluateHand_value_bound (cards : List Card) (e : HandEvaluation)
    (h : evaluateHand cards = some e) :
    catBase e.rank ≤ e.value ∧ e.value < catBase e.rank + 1000000 := by
  unfold evaluateHand at h
  split at h
  · exact absurd h (by simp)
  · dsimp only at h
    split at h
    · split at h
      · cases h
        exact straightFlushEval_bound _ _
      · cases h
        exact evaluateRest_bound _ _ _ _
    · cases h
      exact evaluateRest_bound _ _ _ _

theorem catBase_eq (r : HandRank) : catBase r = 1000000 * categoryIndex r := rfl

/-- The seven cards A♠ A♥ A♦ K♠ K♥ K♦ 2♣ of claim C1. -/
def handTwoTrips : List Card :=
  [⟨.spades, .rA⟩, ⟨.hearts, .rA⟩, ⟨.diamonds, .rA⟩,
   ⟨.spades, .rK⟩, ⟨.hearts, .rK⟩, ⟨.diamonds, .rK⟩, ⟨.clubs, .r2⟩]

/-- C1: on the seven cards {A♠, A♥, A♦, K♠, K♥, K♦, 2♣} the claim expects a
full house whose three cards are the HIGHER triple (three Aces) and whose pair
is the top two of the lower triple (two Kings).  Evaluating the code at this
input shows the opposite: `evaluateHand` deliberately uses the LOWER triple as
the trips, returning Kings full of Aces (bestFive = three Kings and two Aces,
value 6013014 = 6000000 + 13·1000 + 14), so the claim's expected result is not
what the code produces. -/
theorem evaluateHand_two_trips_divergence :
    evaluateHand handTwoTrips =
      some { rank := HandRank.fullHouse, value := 6013014
             bestFive := [⟨.spades, .rK⟩, ⟨.hearts, .rK⟩, ⟨.diamonds, .rK⟩,
                          ⟨.spades, .rA⟩, ⟨.hearts, .rA⟩]
             kickers := [] } ∧
    ((evaluateHand handTwoTrips).getD (highCardEval [])).bestFive.countP
        (fun c => c.rank == Rank.rA) = 2 ∧
    ((evaluateHand handTwoTrips).getD (highCardEval [])).bestFive.countP
        (fun c => c.rank == Rank.rK) = 3 :=
  ⟨rfl, rfl, rfl⟩

/-- C6: for any two evaluations produced by `evaluateHand` on accepted inputs,
a strictly stronger category (in the order high-card < pair < two-pair < trips
< straight < flush < full-house < quads < straight-flush < royal-flush) implies
a strictly greater comparison value: the in-category encodings never reach the
1 000 000 gap between category base constants. -/
theorem evaluateHand_category_dominates (cs1 cs2 : List Card) (e1 e2 : HandEvaluation)
    (h1 : evaluateHand cs1 = some e1) (h2 : evaluateHand cs2 = some e2)
    (hcat : categoryIndex e2.rank < categoryIndex e1.rank) :
    e2.value < e1.value := by
  have b1 := evaluateHand_value_bound cs1 e1 h1
  have b2 := evaluateHand_value_bound cs2 e2 h2
  rw [catBase_eq] at b1 b2
  omega

/-- A five-card hand evaluating to a pair of Aces. -/
def handC6Pair : List Card :=
  [⟨.spades, .rA⟩, ⟨.hearts, .rA⟩, ⟨.diamonds, .r7⟩, ⟨.spades, .r5⟩, ⟨.clubs, .r2⟩]

/-- A five-card hand evaluating to king-high. -/
def handC6High : List Card :=
  [⟨.spades, .rK⟩, ⟨.hearts, .rJ⟩, ⟨.diamonds, .r9⟩, ⟨.spades, .r5⟩, ⟨.clubs, .r2⟩]

/-- The evaluation the engine returns for `handC6Pair`. -/
def evalC6Pair : HandEvaluation :=
  { rank := .pair, value := 1141652
    bestFive := [⟨.spades, .rA⟩, ⟨.hearts, .rA⟩, ⟨.diamonds, .r7⟩,
                 ⟨.spades, .r5⟩, ⟨.clubs, .r2⟩]
    kickers := [7, 5, 2] }

/-- The evaluation the engine returns for `handC6High`. -/
def evalC6High : HandEvaluation :=
  { rank := .highCard, value := 697352
    bestFive := [⟨.spades, .rK⟩, ⟨.hearts, .rJ⟩, ⟨.diamonds, .r9⟩,
                 ⟨.spades, .r5⟩, ⟨.clubs, .r2⟩]
    kickers := [13, 11, 9, 5, 2] }

/-- Witness for C6: a concrete pair hand beats a concrete high-card hand. -/
theorem evaluateHand_category_dominates_witness :
    evaluateHand handC6Pair = some evalC6Pair ∧
      evaluateHand handC6High = some evalC6High ∧
      evalC6High.value < evalC6Pair.value :=
  ⟨rfl, rfl,
    evaluateHand_category_dominates handC6Pair handC6High evalC6Pair evalC6High
      rfl rfl (by decide)⟩

/-! ## Betting engine (`betting.ts`) -/

/-- The six player actions (`types.ts`). -/
inductive PlayerAction where
  | fold | check | call | bet | raise | allIn
deriving DecidableEq, Repr

/-- `PlayerActionData` from `types.ts`; the JS `Date.now()` timestamp is an
opaque integer supplied by the caller in this model. -/
structure PlayerActionData where
  playerId : String
  action : PlayerAction
  amount : Int
  timestamp : Int
deriving DecidableEq, Repr

/-- `Player` from `types.ts` (the optional `timeLeft` display field, unused by
the engine, is omitted). -/
structure Player where
  id : String
  name : String
  avatarUrl : Option String
  chips : Int
  holeCards : List Card
  isDealer : Bool
  isSmallBlind : Bool
  isBigBlind : Bool
  currentBet : Int
  totalBetThisHand : Int
  isFolded : Bool
  isAllIn : Bool
  isActive : Bool
  seatIndex : Nat
  lastAction : Option PlayerAction
deriving DecidableEq, Repr

/-- `BettingRound` from `types.ts`. -/
structure BettingRound where
  currentBet : Int
  minRaise : Int
  lastRaiseAmount : Int
  lastRaiserIndex : Int
  actionIndex : Int
  isComplete : Bool
  actions : List PlayerActionData
deriving DecidableEq, Repr

/-- `BettingOptions` from `betting.ts`. -/
structure BettingOptions where
  canCheck : Bool
  canCall : Bool
  canBet : Bool
  canRaise : Bool
  minBet : Int
  minRaise : Int
  maxBet : Int
  callAmount : Int
deriving DecidableEq, Repr

/-- `getBettingOptions` from `betting.ts`. -/
def getBettingOptions (player : Player) (bettingRound : BettingRound)
    (bigBlind : Int) : BettingOptions :=
  let currentBet := bettingRound.currentBet
  let playerBet := player.currentBet
  let callAmount := max 0 (currentBet - playerBet)
  let maxBet := player.chips
  if player.isAllIn then
    { canCheck := false, canCall := false, canBet := false, canRaise := false
      minBet := 0, minRaise := 0, maxBet := 0, callAmount := 0 }
  else if currentBet = 0 then
    { canCheck := true, canCall := false, canBet := decide (maxBet > 0), canRaise := false
      minBet := min bigBlind maxBet, minRaise := 0, maxBet := maxBet, callAmount := 0 }
  else
    let minRaiseAmount := max bettingRound.lastRaiseAmount bigBlind
    let minRaise := currentBet + minRaiseAmount
    { canCheck := decide (callAmount = 0)
      canCall := decide (callAmount > 0) && decide (maxBet ≥ callAmount)
      canBet := false
      canRaise := decide (maxBet + playerBet ≥ minRaise)
      minBet := 0
      minRaise := min (minRaise - playerBet) maxBet
      maxBet := maxBet
      callAmount := min callAmount maxBet }

/-- `BettingResult` from `betting.ts` (optional fields as `Option`). -/
structure BettingResult where
  isValid : Bool
  error : Option String
  newBet : Option Int
  newChips : Option Int
deriving DecidableEq, Repr

/-- `processPlayerAction` from `betting.ts`: validate an action and compute the
player's new round bet and stack. -/
def processPlayerAction (player : Player) (action : PlayerAction) (amount : Int)
    (bettingRound : BettingRound) (bigBlind : Int) : BettingResult :=
  let options := getBettingOptions player bettingRound bigBlind
  match action with
  | .fold => { isValid := true, error := none
               newBet := some player.currentBet, newChips := some player.chips }
  | .check =>
    if !options.canCheck then
      { isValid := false, error := some "Cannot check when there is a bet to call"
        newBet := none, newChips := none }
    else
      { isValid := true, error := none
        newBet := some player.currentBet, newChips := some player.chips }
  | .call =>
    if !options.canCall then
      { isValid := false, error := some "Nothing to call", newBet := none, newChips := none }
    else
      let callAmount := min options.callAmount player.chips
      { isValid := true, error := none
        newBet := some (player.currentBet + callAmount)
        newChips := some (player.chips - callAmount) }
  | .bet =>
    if !options.canBet then
      { isValid := false, error := some "Cannot bet when there is already betting"
        newBet := none, newChips := none }
    else if amount < options.minBet then
      { isValid := false, error := some ("Minimum bet is " ++ toString options.minBet)
        newBet := none, newChips := none }
    else if amount > options.maxBet then
      { isValid := false, error := some ("Maximum bet is " ++ toString options.maxBet)
        newBet := none, newChips := none }
    else
      { isValid := true, error := none
        newBet := some (player.currentBet + amount)
        newChips := some (player.chips - amount) }
  | .raise =>
    if !options.canRaise then
      { isValid := false, error := some "Cannot raise", newBet := none, newChips := none }
    else if amount < options.minRaise then
      { isValid := false, error := some ("Minimum raise is " ++ toString options.minRaise)
        newBet := none, newChips := none }
    else if amount > options.maxBet then
      { isValid := false, error := some ("Maximum raise is " ++ toString options.maxBet)
        newBet := none, newChips := none }
    else
      { isValid := true, error := none
        newBet := some (player.currentBet + amount)
        newChips := some (player.chips - amount) }
  | .allIn =>
    if player.chips = 0 then
      { isValid := false, error := some "No chips to go all-in", newBet := none, newChips := none }
    else
      { isValid := true, error := none
        newBet := some (player.currentBet + player.chips), newChips := some 0 }

/-- Result of `applyPlayerAction`: the `{success, error}` return value together
with the mutated player and betting round (unchanged on failure). -/
structure ApplyActionOutcome where
  success : Bool
  error : Option String
  player : Player
  bettingRound : BettingRound
deriving DecidableEq, Repr

/-- `applyPlayerAction` from `betting.ts`.  The source mutates `player` and
`bettingRound`; here the updated records are returned.  `now` stands for the
JS `Date.now()` timestamp recorded in the action log. -/
def applyPlayerAction (player : Player) (action : PlayerAction) (amount : Int)
    (bettingRound : BettingRound) (bigBlind : Int) (now : Int) : ApplyActionOutcome :=
  let result := processPlayerAction player action amount bettingRound bigBlind
  if !result.isValid then
    { success := false, error := result.error, player := player, bettingRound := bettingRound }
  else
    let oldBet := player.currentBet
    let p1 := { player with
      currentBet := result.newBet.getD player.currentBet
      chips := result.newChips.getD player.chips
      lastAction := some action }
    let p2 := if action = .fold then { p1 with isFolded := true } else p1
    let p3 := if p2.chips = 0 then { p2 with isAllIn := true } else p2
    let betIncrease := p3.currentBet - oldBet
    let p4 := { p3 with totalBetThisHand := p3.totalBetThisHand + betIncrease }
    let round1 :=
      if action = .bet ∨ action = .raise ∨ action = .allIn then
        let newCurrentBet := max bettingRound.currentBet p4.currentBet
        if newCurrentBet > bettingRound.currentBet then
          { bettingRound with
            lastRaiseAmount := newCurrentBet - bettingRound.currentBet
            currentBet := newCurrentBet }
        else bettingRound
      else bettingRound
    let actionData : PlayerActionData :=
      { playerId := player.id, action := action, amount := betIncrease, timestamp := now }
    let round2 := { round1 with actions := round1.actions ++ [actionData] }
    { success := true, error := none, player := p4, bettingRound := round2 }

/-- `isBettingRoundComplete` from `betting.ts`. -/
def isBettingRoundComplete (players : List Player) (bettingRound : BettingRound) : Bool :=
  let activePlayers := players.filter (fun p => p.isActive && !p.isFolded)
  if activePlayers.length ≤ 1 then true
  else
    let playersWhoNeedToAct := activePlayers.filter (fun p =>
      let actedAlready := bettingRound.actions.any (fun a => a.playerId == p.id)
      let needsToCallOrFold :=
        decide (p.currentBet < bettingRound.currentBet) && !p.isAllIn
      !actedAlready || needsToCallOrFold)
    decide (playersWhoNeedToAct.length = 0)

/-- The per-seat skip test of `getNextPlayerToAct`: empty, inactive, folded and
all-in seats are passed over. -/
def skipsSeat (p : Player) : Bool := !p.isActive || p.isFolded || p.isAllIn

/-- The per-seat stop test of `getNextPlayerToAct`: has not acted this round, or
has a round bet below the round's current bet. -/
def needsAction (bettingRound : BettingRound) (p : Player) : Bool :=
  !(bettingRound.actions.any (fun a => a.playerId == p.id))
    || decide (p.currentBet < bettingRound.currentBet)

/-- `getNextPlayerToAct` from `betting.ts`.  The JS `%` coincides with `emod`
here because the scanned dividend `currentPlayerIndex + 1 + i` is non-negative
whenever `currentPlayerIndex ≥ -1`, which the table maintains. -/
def getNextPlayerToAct (players : List Player) (currentPlayerIndex : Int)
    (bettingRound : BettingRound) : Int :=
  let activePlayers := players.filter (fun p => p.isActive && !p.isFolded)
  if activePlayers.length ≤ 1 then -1
  else
    let candidates := (List.range players.length).map
      (fun i => ((currentPlayerIndex + 1 + (i : Int)).emod (players.length : Int)).toNat)
    match candidates.find? (fun j =>
        match players.get? j with
        | some p => !skipsSeat p && needsAction bettingRound p
        | none => false) with
    | some j => (j : Int)
    | none => -1

/-- The test helper shape used throughout the repository's unit tests: an active
seated player with a given stack and committed total. -/
def mkPlayer (id : String) (chips totalBet : Int) : Player :=
  { id := id, name := id, avatarUrl := none, chips := chips, holeCards := []
    isDealer := false, isSmallBlind := false, isBigBlind := false
    currentBet := 0, totalBetThisHand := totalBet
    isFolded := false, isAllIn := false, isActive := true
    seatIndex := 0, lastAction := none }

/-- Preflop betting round after a raise to 40 over a big blind of 10
(`lastRaiseAmount` = 30); the raiser has already acted. -/
def c2Round0 : BettingRound :=
  { currentBet := 40, minRaise := 10, lastRaiseAmount := 30, lastRaiserIndex := 0
    actionIndex := 0, isComplete := false
    actions := [{ playerId := "raiser", action := PlayerAction.raise
                  amount := 30, timestamp := 0 }] }

/-- The original raiser: 960 chips behind, 40 already in this round. -/
def c2Raiser : Player := { mkPlayer "raiser" 960 40 with currentBet := 40 }

/-- A third player who shoves all-in for 55 — only 15 over the current bet,
below the minimum full-raise increment of 30. -/
def c2Shover : Player := mkPlayer "shover" 55 0

/-- The engine state after the short all-in is applied. -/
def c2AfterShove : ApplyActionOutcome :=
  applyPlayerAction c2Shover PlayerAction.allIn 0 c2Round0 10 1

/-- C2: the claim says an all-in that raises the round bet by less than the
minimum raise increment `max(lastRaiseAmount, bigBlind)` leaves players who
already acted with only call or fold.  Evaluating the code on the claim's own
scenario (big blind 10, raise to 40, all-in to 55): the all-in is short (the
increase 15 is below the required 30), the original raiser has already acted,
and yet `getBettingOptions` still reports `canRaise = true` for them — the
engine never tracks whether a raise reopened the action, it only checks the
raiser's stack. -/
theorem short_allin_still_offers_raise :
    c2AfterShove.success = true ∧
    c2AfterShove.bettingRound.currentBet - c2Round0.currentBet
        < max c2Round0.lastRaiseAmount 10 ∧
    c2Round0.actions.any (fun a => a.playerId == c2Raiser.id) = true ∧
    (getBettingOptions c2Raiser c2AfterShove.bettingRound 10).canRaise = true := by
  decide

/-- A player already marked folded in the current hand. -/
def c9Folded : Player := { mkPlayer "f" 500 0 with isFolded := true }

/-- An open betting round with an empty action log. -/
def c9Round : BettingRound :=
  { currentBet := 0, minRaise := 10, lastRaiseAmount := 10, lastRaiserIndex := -1
    actionIndex := -1, isComplete := false, actions := [] }

/-- C9: the claim says a fold by an already-folded player is rejected with
`success: false` and no state change.  Evaluating the code: `processPlayerAction`
accepts `fold` unconditionally (it never consults `isFolded`), so
`applyPlayerAction` returns `success = true` with no error and appends a new
record to the round's action log — the betting round does change. -/
theorem fold_when_already_folded_not_rejected :
    c9Folded.isFolded = true ∧
    (processPlayerAction c9Folded PlayerAction.fold 0 c9Round 10).isValid = true ∧
    (applyPlayerAction c9Folded PlayerAction.fold 0 c9Round 10 5).success = true ∧
    (applyPlayerAction c9Folded PlayerAction.fold 0 c9Round 10 5).error = none ∧
    (applyPlayerAction c9Folded PlayerAction.fold 0 c9Round 10 5).bettingRound.actions.length
      = c9Round.actions.length + 1 := by
  decide

/-! ## Pot manager (`potManager.ts`) -/

/-- `Pot` from `types.ts`. -/
structure Pot where
  amount : Int
  eligiblePlayers : List String
  isMainPot : Bool
deriving DecidableEq, Repr

/-- Insert a player into a list sorted ascending by `totalBetThisHand`, after
all players with a smaller or equal total; folding this gives the stable
ascending sort of `calculateSidePots` (JS `sort` is stable). -/
def insertPlayerAsc (p : Player) : List Player → List Player
  | [] => [p]
  | q :: qs =>
    if q.totalBetThisHand ≤ p.totalBetThisHand then q :: insertPlayerAsc p qs
    else p :: q :: qs

/-- Stable ascending sort by `totalBetThisHand`. -/
def sortPlayersByTotalBetAsc (l : List Player) : List Player :=
  l.foldl (fun acc p => insertPlayerAsc p acc) []

/-- The index loop of `calculateSidePots`: at each position whose bet level
exceeds the previous level, emit a pot of `(level − previous) ×` (number of
remaining players), eligible for every remaining player; `isMainPot` is true
exactly at loop index 0. -/
def sidePotsGo : List Player → Int → Nat → List Pot
  | [], _, _ => []
  | p :: rest, previousBetLevel, i =>
    let currentBetLevel := p.totalBetThisHand
    if currentBetLevel > previousBetLevel then
      { amount := (currentBetLevel - previousBetLevel) * ((rest.length : Int) + 1)
        eligiblePlayers := (p :: rest).map (·.id)
        isMainPot := decide (i = 0) } :: sidePotsGo rest currentBetLevel (i + 1)
    else sidePotsGo rest previousBetLevel (i + 1)

/-- `calculateSidePots` from `potManager.ts`.  Note that the eligible set is
`sortedPlayers.slice(i)` — active players with a large enough total bet,
with no exclusion of folded players. -/
def calculateSidePots (players : List Player) : List Pot :=
  let activePlayers := players.filter (fun p => p.isActive && decide (p.totalBetThisHand > 0))
  if activePlayers.length = 0 then []
  else sidePotsGo (sortPlayersByTotalBetAsc activePlayers) 0 0

/-- `PotDistribution` from `potManager.ts`. -/
structure PotDistribution where
  playerId : String
  amount : Int
  potIndex : Nat
deriving DecidableEq, Repr

/-- An entry of the ranked winners list passed to `distributePots`
(rank 0 = best hand, ties share a rank). -/
structure WinnerRank where
  playerId : String
  rank : Int
deriving DecidableEq, Repr

/-- `Math.min(...eligibleWinners.map(w => w.rank))` over a non-empty list. -/
def minRankOf : List WinnerRank → Int
  | [] => 0
  | w :: ws => ws.foldl (fun m x => min m x.rank) w.rank

/-- The body of `distributePots` for one pot: restrict the winners to the pot's
eligible set, split evenly among the minimum-rank winners, handing the integer
remainder one chip at a time to the first such winners.  (JS `Math.floor` of a
division and `%` are `fdiv`/`fmod` for the non-negative amounts that occur.)
The empty-eligible-winners fallback splits the pot over the whole eligible set. -/
def potPayout (pot : Pot) (winners : List WinnerRank) (potIndex : Nat) :
    List PotDistribution :=
  let eligibleWinners := winners.filter (fun w => pot.eligiblePlayers.contains w.playerId)
  if eligibleWinners.length = 0 then
    let share := pot.amount.fdiv (pot.eligiblePlayers.length : Int)
    pot.eligiblePlayers.map (fun pid => { playerId := pid, amount := share, potIndex := potIndex })
  else
    let bestRank := minRankOf eligibleWinners
    let potWinners := eligibleWinners.filter (fun w => w.rank == bestRank)
    let share := pot.amount.fdiv (potWinners.length : Int)
    let remainder := pot.amount.fmod (potWinners.length : Int)
    potWinners.enum.map (fun iw =>
      { playerId := iw.2.playerId
        amount := share + (if (iw.1 : Int) < remainder then 1 else 0)
        potIndex := potIndex })

/-- The pot loop of `distributePots`, tracking the pot index. -/
def distributePotsGo : List Pot → List WinnerRank → Nat → List PotDistribution
  | [], _, _ => []
  | pot :: rest, winners, potIndex =>
    potPayout pot winners potIndex ++ distributePotsGo rest winners (potIndex + 1)

/-- `distributePots` from `potManager.ts`. -/
def distributePots (pots : List Pot) (winners : List WinnerRank) : List PotDistribution :=
  distributePotsGo pots winners 0

/-- The three contributors of the C3 scenario: A all-in for 100, B all-in for
150, C bets 200, none folded. -/
def c3Players : List Player :=
  [mkPlayer "A" 0 100, mkPlayer "B" 0 150, mkPlayer "C" 50 200]

/-- The same contributions with A folded. -/
def c3PlayersFoldedA : List Player :=
  [{ mkPlayer "A" 0 100 with isFolded := true }, mkPlayer "B" 0 150, mkPlayer "C" 50 200]

/-- C3: on the claim's own example (100/150/200, nobody folded) the pot levels,
amounts and main flag come out exactly as claimed; but `calculateSidePots`
never consults `isFolded`, so with A folded the result is identical and the
folded player A still appears in the main pot's eligible set — contradicting
the claim that a pot's eligible set contains exactly the NON-FOLDED players at
or above its level. -/
theorem calculateSidePots_keeps_folded_eligible :
    calculateSidePots c3Players =
      [{ amount := 300, eligiblePlayers := ["A", "B", "C"], isMainPot := true },
       { amount := 100, eligiblePlayers := ["B", "C"], isMainPot := false },
       { amount := 50, eligiblePlayers := ["C"], isMainPot := false }] ∧
    (c3PlayersFoldedA.headD (mkPlayer "" 0 0)).isFolded = true ∧
    calculateSidePots c3PlayersFoldedA = calculateSidePots c3Players ∧
    ((calculateSidePots c3PlayersFoldedA).headD
        { amount := 0, eligiblePlayers := [], isMainPot := false }).eligiblePlayers.contains "A"
      = true := by
  decide

theorem foldl_min_le_init (ws : List WinnerRank) (a : Int) :
    ws.foldl (fun m x => min m x.rank) a ≤ a := by
  induction ws generalizing a with
  | nil => simp
  | cons w ws ih =>
    simp only [List.foldl_cons]
    exact le_trans (ih _) (min_le_left _ _)

theorem foldl_min_le_mem (ws : List WinnerRank) (a : Int) :
    ∀ x ∈ ws, ws.foldl (fun m x => min m x.rank) a ≤ x.rank := by
  induction ws generalizing a with
  | nil => simp
  | cons w ws ih =>
    intro x hx
    simp only [List.foldl_cons]
    rcases List.mem_cons.mp hx with rfl | hx
    · exact le_trans (foldl_min_le_init _ _) (min_le_right _ _)
    · exact ih _ x hx

theorem foldl_min_attained (ws : List WinnerRank) (a : Int) :
    ws.foldl (fun m x => min m x.rank) a = a ∨
      ∃ x ∈ ws, ws.foldl (fun m x => min m x.rank) a = x.rank := by
  induction ws generalizing a with
  | nil => simp
  | cons w ws ih =>
    simp only [List.foldl_cons]
    rcases ih (min a w.rank) with h | ⟨x, hx, hfx⟩
    · rcases le_total a w.rank with hle | hle
      · left
        rw [h, min_eq_left hle]
      · right
        exact ⟨w, by simp, by rw [h, min_eq_right hle]⟩
    · right
      exact ⟨x, by simp [hx], hfx⟩

/-- `minRankOf` is a lower bound on the rank of every listed winner. -/
theorem minRankOf_le (ws : List WinnerRank) : ∀ x ∈ ws, minRankOf ws ≤ x.rank := by
  cases ws with
  | nil => simp
  | cons w ws =>
    intro x hx
    rcases List.mem_cons.mp hx with rfl | hx
    · exact foldl_min_le_init _ _
    · exact foldl_min_le_mem _ _ x hx

/-- On a non-empty list, `minRankOf` is attained by some listed winner. -/
theorem minRankOf_attained (w : WinnerRank) (ws : List WinnerRank) :
    ∃ x ∈ w :: ws, x.rank = minRankOf (w :: ws) := by
  unfold minRankOf
  rcases foldl_min_attained ws w.rank with h | ⟨x, hx, hfx⟩
  · exact ⟨w, by simp, h.symm⟩
  · exact ⟨x, by simp [hx], hfx.symm⟩

/-- Summing a constant share plus one extra chip for the first `r` positions
over `n` positions. -/
theorem range_sum_shares (n : Nat) (s r : Int) (h0 : 0 ≤ r) :
    ((List.range n).map (fun (i : Nat) => s + if (i : Int) < r then 1 else 0)).sum
      = n * s + min r n := by
  induction n with
  | zero => simp; omega
  | succ n ih =>
    rw [List.range_succ, List.map_append, List.sum_append]
    simp only [List.map_cons, List.map_nil, List.sum_cons, List.sum_nil, ih]
    have hcast : ((n + 1 : Nat) : Int) = (n : Int) + 1 := by push_cast; ring
    rw [hcast, add_mul, one_mul]
    rcases min_cases r ((n : Int)) with ⟨h1, h2⟩ | ⟨h1, h2⟩ <;>
      rcases min_cases r ((n : Int) + 1) with ⟨h3, h4⟩ | ⟨h3, h4⟩ <;>
      split_ifs with hlt <;> omega

/-- Each pot with at least one eligible winner is paid out in full: the shares
produced by `potPayout` sum to the pot amount. -/
theorem potPayout_sum (pot : Pot) (winners : List WinnerRank) (idx : Nat)
    (he : ∃ w ∈ winners, pot.eligiblePlayers.contains w.playerId = true) :
    ((potPayout pot winners idx).map (·.amount)).sum = pot.amount := by
  obtain ⟨w, hw, hcont⟩ := he
  have hmemEW : w ∈ winners.filter (fun w => pot.eligiblePlayers.contains w.playerId) :=
    List.mem_filter.mpr ⟨hw, hcont⟩
  unfold potPayout
  rw [if_neg (by
    intro h0
    rw [List.length_eq_zero] at h0
    rw [h0] at hmemEW
    exact absurd hmemEW (List.not_mem_nil _))]
  have hPWmem : w ∈ (winners.filter (fun w => pot.eligiblePlayers.contains w.playerId)) := hmemEW
  -- the minimum-rank filter is non-empty
  have hPWne :
      (winners.filter (fun w => pot.eligiblePlayers.contains w.playerId)).filter
        (fun x => x.rank == minRankOf
          (winners.filter (fun w => pot.eligiblePlayers.contains w.playerId))) ≠ [] := by
    cases hEW : winners.filter (fun w => pot.eligiblePlayers.contains w.playerId) with
    | nil => rw [hEW] at hmemEW; exact absurd hmemEW (List.not_mem_nil _)
    | cons a as =>
      obtain ⟨x, hxmem, hxrank⟩ := minRankOf_attained a as
      apply List.ne_nil_of_mem (a := x)
      exact List.mem_filter.mpr ⟨hxmem, beq_iff_eq.mpr hxrank⟩
  set PW := (winners.filter (fun w => pot.eligiblePlayers.contains w.playerId)).filter
    (fun x => x.rank == minRankOf
      (winners.filter (fun w => pot.eligiblePlayers.contains w.playerId))) with hPWdef
  have hkpos : 0 < (PW.length : Int) := by
    have : PW.length ≠ 0 := by simpa [List.length_eq_zero] using hPWne
    omega
  rw [List.map_map]
  have hcomp :
      ((fun d : PotDistribution => d.amount) ∘ fun iw : Nat × WinnerRank =>
          { playerId := iw.2.playerId
            amount := pot.amount.fdiv (PW.length : Int) +
              (if (iw.1 : Int) < pot.amount.fmod (PW.length : Int) then 1 else 0)
            potIndex := idx })
        = (fun iw : Nat × WinnerRank => pot.amount.fdiv (PW.length : Int) +
            (if (iw.1 : Int) < pot.amount.fmod (PW.length : Int) then 1 else 0)) := rfl
  rw [hcomp]
  have hfst : PW.enum.map (fun iw : Nat × WinnerRank =>
        pot.amount.fdiv (PW.length : Int) +
          (if (iw.1 : Int) < pot.amount.fmod (PW.length : Int) then 1 else 0))
      = (PW.enum.map Prod.fst).map (fun (i : Nat) =>
          pot.amount.fdiv (PW.length : Int) +
            (if (i : Int) < pot.amount.fmod (PW.length : Int) then 1 else 0)) := by
    rw [List.map_map]
    rfl
  rw [hfst, List.enum_map_fst]
  rw [range_sum_shares _ _ _ (Int.fmod_nonneg' _ hkpos)]
  have hlt := Int.fmod_lt_of_pos pot.amount hkpos
  have hid := Int.fmod_add_fdiv pot.amount (PW.length : Int)
  rw [min_eq_left (le_of_lt hlt)]
  omega

theorem distributePotsGo_sum (pots : List Pot) (winners : List WinnerRank) (idx : Nat)
    (he : ∀ pot ∈ pots, ∃ w ∈ winners, pot.eligiblePlayers.contains w.playerId = true) :
    ((distributePotsGo pots winners idx).map (·.amount)).sum = (pots.map (·.amount)).sum := by
  induction pots generalizing idx with
  | nil => simp [distributePotsGo]
  | cons pot rest ih =>
    simp only [distributePotsGo, List.map_append, List.sum_append, List.map_cons, List.sum_cons]
    rw [potPayout_sum pot winners idx (he pot (by simp)),
      ih (idx + 1) (fun p hp => he p (by simp [hp]))]

/-- Every share emitted by `potPayout` goes to a winner who is eligible for the
pot and has the minimum rank among eligible winners. -/
theorem potPayout_minRank (pot : Pot) (winners : List WinnerRank) (idx : Nat)
    (he : ∃ w ∈ winners, pot.eligiblePlayers.contains w.playerId = true) :
    ∀ d ∈ potPayout pot winners idx,
      d.potIndex = idx ∧
      ∃ w ∈ winners, w.playerId = d.playerId ∧
        pot.eligiblePlayers.contains w.playerId = true ∧
        ∀ w' ∈ winners, pot.eligiblePlayers.contains w'.playerId = true →
          w.rank ≤ w'.rank := by
  obtain ⟨w0, hw0, hcont0⟩ := he
  have hmemEW : w0 ∈ winners.filter (fun w => pot.eligiblePlayers.contains w.playerId) :=
    List.mem_filter.mpr ⟨hw0, hcont0⟩
  intro d hd
  unfold potPayout at hd
  rw [if_neg (by
    intro h0
    rw [List.length_eq_zero] at h0
    rw [h0] at hmemEW
    exact absurd hmemEW (List.not_mem_nil _))] at hd
  obtain ⟨iw, hiw, rfl⟩ := List.mem_map.mp hd
  refine ⟨rfl, iw.2, ?_⟩
  have hsnd : iw.2 ∈ (winners.filter (fun w => pot.eligiblePlayers.contains w.playerId)).filter
      (fun x => x.rank == minRankOf
        (winners.filter (fun w => pot.eligiblePlayers.contains w.playerId))) := by
    have hget := List.mem_enum_iff_getElem?.mp hiw
    exact List.getElem?_mem hget
  have h1 := List.mem_filter.mp hsnd
  have h2 := List.mem_filter.mp h1.1
  have hrank : iw.2.rank = minRankOf
      (winners.filter (fun w => pot.eligiblePlayers.contains w.playerId)) :=
    beq_iff_eq.mp h1.2
  refine ⟨h2.1, rfl, h2.2, ?_⟩
  intro w' hw' hcont'
  rw [hrank]
  exact minRankOf_le _ w' (List.mem_filter.mpr ⟨hw', hcont'⟩)

theorem distributePotsGo_minRank (pots : List Pot) (winners : List WinnerRank) (idx : Nat)
    (he : ∀ pot ∈ pots, ∃ w ∈ winners, pot.eligiblePlayers.contains w.playerId = true) :
    ∀ d ∈ distributePotsGo pots winners idx,
      idx ≤ d.potIndex ∧
      ∃ pot, pots.get? (d.potIndex - idx) = some pot ∧
        ∃ w ∈ winners, w.playerId = d.playerId ∧
          pot.eligiblePlayers.contains w.playerId = true ∧
          ∀ w' ∈ winners, pot.eligiblePlayers.contains w'.playerId = true →
            w.rank ≤ w'.rank := by
  induction pots generalizing idx with
  | nil => simp [distributePotsGo]
  | cons pot rest ih =>
    intro d hd
    rcases List.mem_append.mp hd with hd1 | hd2
    · obtain ⟨hidx, hpack⟩ := potPayout_minRank pot winners idx (he pot (by simp)) d hd1
      refine ⟨by omega, pot, ?_, hpack⟩
      rw [hidx]
      simp
    · obtain ⟨hle, pot', hget, hpack⟩ := ih (idx + 1) (fun p hp => he p (by simp [hp])) d hd2
      refine ⟨by omega, pot', ?_, hpack⟩
      have hsub : d.potIndex - idx = (d.potIndex - (idx + 1)) + 1 := by omega
      rw [hsub]
      simpa using hget

/-- C5: with every pot carrying a non-negative amount and at least one eligible
winner, `distributePots` (a) pays out the pots in full — the distributed
amounts sum to the total pot amount (each pot splits as `k·⌊amount/k⌋ + extra
chips for the first `amount mod k` winners in order), and (b) awards shares
only to winners eligible for the respective pot whose rank is minimal among
that pot's eligible winners.  (The non-negativity hypothesis keeps the model's
floor-division semantics aligned with the JS `Math.floor`/`%` on the amounts
that actually occur.) -/
theorem distributePots_spec (pots : List Pot) (winners : List WinnerRank)
    (_hamt : ∀ pot ∈ pots, 0 ≤ pot.amount)
    (helig : ∀ pot ∈ pots, ∃ w ∈ winners, pot.eligiblePlayers.contains w.playerId = true) :
    ((distributePots pots winners).map (·.amount)).sum = (pots.map (·.amount)).sum ∧
    ∀ d ∈ distributePots pots winners,
      ∃ pot, pots.get? d.potIndex = some pot ∧
        ∃ w ∈ winners, w.playerId = d.playerId ∧
          pot.eligiblePlayers.contains w.playerId = true ∧
          ∀ w' ∈ winners, pot.eligiblePlayers.contains w'.playerId = true →
            w.rank ≤ w'.rank := by
  constructor
  · exact distributePotsGo_sum pots winners 0 helig
  · intro d hd
    obtain ⟨_, pot, hget, hpack⟩ := distributePotsGo_minRank pots winners 0 helig d hd
    exact ⟨pot, by simpa using hget, hpack⟩

/-- The single 301-chip pot of the C5 example. -/
def c5Pots : List Pot := [{ amount := 301, eligiblePlayers := ["w1", "w2"], isMainPot := true }]

/-- Two winners tied at rank 0. -/
def c5Winners : List WinnerRank := [{ playerId := "w1", rank := 0 }, { playerId := "w2", rank := 0 }]

/-- Witness for C5: the 301-chip pot with two tied winners pays 151 to the first
winner in the canonical order and 150 to the second, 301 in total. -/
theorem distributePots_spec_witness :
    ((distributePots c5Pots c5Winners).map (·.amount)).sum = 301 ∧
    distributePots c5Pots c5Winners =
      [{ playerId := "w1", amount := 151, potIndex := 0 },
       { playerId := "w2", amount := 150, potIndex := 0 }] :=
  ⟨((distributePots_spec c5Pots c5Winners (by decide) (by decide)).1).trans (by decide),
    by decide⟩

/-! ## Table state (`potManager.ts`, class `Table`) -/

/-- `GameStage` from `types.ts`. -/
inductive GameStage where
  | waitingForPlayers | startingHand | preflop | flop | turn | river
  | showdown | payouts | handCleanup
deriving DecidableEq, Repr

/-- `Seat` from `types.ts`. -/
structure Seat where
  index : Nat
  player : Option Player
  isEmpty : Bool
deriving DecidableEq, Repr

/-- The blind sizes of a table. -/
structure Blinds where
  small : Int
  big : Int
deriving DecidableEq, Repr

/-- An entry of the winners display list on `TableState`. -/
structure WinnerEntry where
  playerId : String
  amount : Int
  handRank : HandRank
  bestFive : List Card
deriving DecidableEq, Repr

/-- `TableState` from `types.ts`. -/
structure TableState where
  id : String
  stage : GameStage
  seats : List Seat
  communityCards : List Card
  pots : List Pot
  dealerIndex : Nat
  smallBlindIndex : Nat
  bigBlindIndex : Nat
  currentPlayerIndex : Int
  bettingRound : BettingRound
  handNumber : Nat
  blinds : Blinds
  maxPlayers : Nat
  isHandActive : Bool
  lastAction : Option PlayerActionData
  winners : Option (List WinnerEntry)
deriving DecidableEq, Repr

/-- `this.state.seats[i].player` (None when out of range or empty). -/
def seatPlayer (s : TableState) (i : Nat) : Option Player :=
  match s.seats.get? i with
  | some seat => seat.player
  | none => none

/-- Store a player back into seat `i` (the source mutates the seat's player
object in place). -/
def setSeatPlayer (seats : List Seat) (i : Nat) (p : Player) : List Seat :=
  match seats.get? i with
  | some seat => seats.set i { seat with player := some p }
  | none => seats

/-- `Table.setBlinds` from `potManager.ts`: post the small and big blinds
(capped at the players' stacks) and set the round's current bet to the big
blind actually posted.  The source's non-null seat assertions are modelled by
`Option`. -/
def setBlinds (s : TableState) : Option TableState :=
  match seatPlayer s s.smallBlindIndex with
  | none => none
  | some sbP =>
    let sbAmount := min s.blinds.small sbP.chips
    let sbP1 := { sbP with currentBet := sbAmount, totalBetThisHand := sbAmount
                           chips := sbP.chips - sbAmount }
    let s1 := { s with seats := setSeatPlayer s.seats s.smallBlindIndex sbP1 }
    match seatPlayer s1 s.bigBlindIndex with
    | none => none
    | some bbP =>
      let bbAmount := min s.blinds.big bbP.chips
      let bbP1 := { bbP with currentBet := bbAmount, totalBetThisHand := bbAmount
                             chips := bbP.chips - bbAmount }
      let s2 := { s1 with seats := setSeatPlayer s1.seats s.bigBlindIndex bbP1 }
      some { s2 with bettingRound := { s2.bettingRound with currentBet := bbAmount } }

/-- The players bound to seats (in seat order). -/
def seatedPlayers (seats : List Seat) : List Player := seats.filterMap (·.player)

/-- Σ player.chips over seated players. -/
def chipSum (s : TableState) : Int := ((seatedPlayers s.seats).map (·.chips)).sum

/-- Σ player.totalBetThisHand over seated players. -/
def betSum (s : TableState) : Int :=
  ((seatedPlayers s.seats).map (·.totalBetThisHand)).sum

/-- Σ pot.amount over `state.pots`. -/
def potSum (s : TableState) : Int := (s.pots.map (·.amount)).sum

/-- Σ (chips + totalBetThisHand) over the players of a seat list. -/
def moneySum (seats : List Seat) : Int :=
  ((seatedPlayers seats).map (fun p => p.chips + p.totalBetThisHand)).sum

/-- A two-player table immediately before blinds are posted (fresh hand,
stacks 1000/1000, all bets reset, `state.pots` cleared). -/
def c4Before : TableState :=
  { id := "t", stage := GameStage.startingHand
    seats := [{ index := 0, player := some (mkPlayer "p1" 1000 0), isEmpty := false },
              { index := 1, player := some (mkPlayer "p2" 1000 0), isEmpty := false }]
    communityCards := [], pots := []
    dealerIndex := 0, smallBlindIndex := 0, bigBlindIndex := 1
    currentPlayerIndex := -1
    bettingRound := { currentBet := 0, minRaise := 10, lastRaiseAmount := 10
                      lastRaiserIndex := -1, actionIndex := -1, isComplete := false
                      actions := [] }
    handNumber := 1, blinds := { small := 5, big := 10 }, maxPlayers := 5
    isHandActive := true, lastAction := none, winners := none }

/-- The same table right after `setBlinds`. -/
def c4After : TableState := (setBlinds c4Before).getD c4Before

/-- C4 fails on the code: `setBlinds` moves chips out of the players' stacks
into their `totalBetThisHand` fields, but `state.pots` stays empty until the
showdown, so Σ chips + Σ pot.amount drops from 2000 to 1985 the moment the
blinds are posted — it is not constant within the hand. -/
theorem setBlinds_breaks_chip_plus_pot :
    (setBlinds c4Before).isSome = true ∧
    chipSum c4Before + potSum c4Before = 2000 ∧
    chipSum c4After + potSum c4After = 1985 := by
  decide

theorem moneySum_cons (hd : Seat) (tl : List Seat) :
    moneySum (hd :: tl)
      = (match hd.player with
          | some p => p.chips + p.totalBetThisHand
          | none => 0) + moneySum tl := by
  cases hplayer : hd.player <;> simp [moneySum, seatedPlayers, hplayer]

theorem moneySum_set (seats : List Seat) (i : Nat) (seat : Seat) (old p' : Player)
    (hget : seats.get? i = some seat) (hp : seat.player = some old) :
    moneySum (seats.set i { seat with player := some p' })
      = moneySum seats - (old.chips + old.totalBetThisHand)
        + (p'.chips + p'.totalBetThisHand) := by
  induction seats generalizing i with
  | nil => simp at hget
  | cons hd tl ih =>
    cases i with
    | zero =>
      have hhd : hd = seat := by simpa using hget
      subst hhd
      rw [List.set_cons_zero, moneySum_cons, moneySum_cons, hp]
      simp
      ring
    | succ n =>
      have hget' : tl.get? n = some seat := by simpa using hget
      rw [List.set_cons_succ, moneySum_cons, moneySum_cons, ih n hget']
      ring

theorem chipSum_add_betSum (s : TableState) :
    chipSum s + betSum s = moneySum s.seats := by
  unfold chipSum betSum moneySum
  induction seatedPlayers s.seats with
  | nil => simp
  | cons p ps ih => simp only [List.map_cons, List.sum_cons]; omega

theorem setSeatPlayer_eq (seats : List Seat) (i : Nat) (p : Player) (seat : Seat)
    (hget : seats.get? i = some seat) :
    setSeatPlayer seats i p = seats.set i { seat with player := some p } := by
  unfold setSeatPlayer
  rw [hget]

/-- A seated player's record is among `seatedPlayers`. -/
theorem seatPlayer_mem (s : TableState) (i : Nat) (p : Player)
    (h : seatPlayer s i = some p) : p ∈ seatedPlayers s.seats := by
  unfold seatPlayer at h
  cases hget : s.seats.get? i with
  | none => rw [hget] at h; exact absurd h (by simp)
  | some seat =>
    rw [hget] at h
    exact List.mem_filterMap.mpr ⟨seat, List.get?_mem hget, h⟩

/-- Posting the blinds conserves Σ chips + Σ totalBetThisHand (the blinds seats
are distinct and, as at the start of every hand, all committed totals are 0). -/
theorem setBlinds_conserves_money (s s' : TableState)
    (hidx : s.smallBlindIndex ≠ s.bigBlindIndex)
    (hzero : ∀ p ∈ seatedPlayers s.seats, p.totalBetThisHand = 0)
    (h : setBlinds s = some s') :
    chipSum s' + betSum s' = chipSum s + betSum s := by
  rw [chipSum_add_betSum, chipSum_add_betSum]
  unfold setBlinds at h
  cases hsb : seatPlayer s s.smallBlindIndex with
  | none => rw [hsb] at h; exact absurd h (by simp)
  | some sbP =>
    rw [hsb] at h
    dsimp only at h
    obtain ⟨sbSeat, hsbGet, hsbP⟩ : ∃ seat, s.seats.get? s.smallBlindIndex = some seat ∧
        seat.player = some sbP := by
      unfold seatPlayer at hsb
      cases hget : s.seats.get? s.smallBlindIndex with
      | none => rw [hget] at hsb; exact absurd hsb (by simp)
      | some seat => rw [hget] at hsb; exact ⟨seat, rfl, hsb⟩
    set sbAmount := min s.blinds.small sbP.chips with hsbA
    set sbP1 : Player := { sbP with currentBet := sbAmount, totalBetThisHand := sbAmount
                                    chips := sbP.chips - sbAmount } with hsbP1
    have hseats1 : setSeatPlayer s.seats s.smallBlindIndex sbP1
        = s.seats.set s.smallBlindIndex { sbSeat with player := some sbP1 } :=
      setSeatPlayer_eq _ _ _ _ hsbGet
    have hsbZero : sbP.totalBetThisHand = 0 := hzero sbP (seatPlayer_mem s _ sbP hsb)
    have hmoney1 : moneySum (setSeatPlayer s.seats s.smallBlindIndex sbP1)
        = moneySum s.seats := by
      rw [hseats1, moneySum_set s.seats _ sbSeat sbP sbP1 hsbGet hsbP]
      simp [hsbP1]
      omega
    cases hbb : seatPlayer { s with seats := setSeatPlayer s.seats s.smallBlindIndex sbP1 }
        s.bigBlindIndex with
    | none => rw [hbb] at h; exact absurd h (by simp)
    | some bbP =>
      rw [hbb] at h
      dsimp only at h
      obtain ⟨bbSeat, hbbGet, hbbP⟩ : ∃ seat,
          (setSeatPlayer s.seats s.smallBlindIndex sbP1).get? s.bigBlindIndex = some seat ∧
            seat.player = some bbP := by
        unfold seatPlayer at hbb
        cases hget : (setSeatPlayer s.seats s.smallBlindIndex sbP1).get? s.bigBlindIndex with
        | none => rw [hget] at hbb; exact absurd hbb (by simp)
        | some seat => rw [hget] at hbb; exact ⟨seat, rfl, hbb⟩
      -- the big-blind seat is untouched by the small-blind update
      have hbbGetOrig : s.seats.get? s.bigBlindIndex = some bbSeat := by
        rw [hseats1] at hbbGet
        rwa [List.get?_set_ne _ _ (fun heq => hidx heq)] at hbbGet
      have hbbZero : bbP.totalBetThisHand = 0 := by
        refine hzero bbP ?_
        exact List.mem_filterMap.mpr ⟨bbSeat, List.get?_mem hbbGetOrig, hbbP⟩
      set bbAmount := min s.blinds.big bbP.chips with hbbA
      set bbP1 : Player := { bbP with currentBet := bbAmount, totalBetThisHand := bbAmount
                                      chips := bbP.chips - bbAmount } with hbbP1
      have hseats2 : setSeatPlayer (setSeatPlayer s.seats s.smallBlindIndex sbP1)
            s.bigBlindIndex bbP1
          = (setSeatPlayer s.seats s.smallBlindIndex sbP1).set s.bigBlindIndex
              { bbSeat with player := some bbP1 } :=
        setSeatPlayer_eq _ _ _ _ hbbGet
      have hmoney2 : moneySum (setSeatPlayer (setSeatPlayer s.seats s.smallBlindIndex sbP1)
            s.bigBlindIndex bbP1)
          = moneySum (setSeatPlayer s.seats s.smallBlindIndex sbP1) := by
        rw [hseats2, moneySum_set _ _ bbSeat bbP bbP1 hbbGet hbbP]
        simp [hbbP1]
        omega
      cases h
      simpa using hmoney2.trans hmoney1

/-- A validated action's new round bet and stack add up to the old ones: the
chips either stay or move from the stack into the round bet. -/
theorem processPlayerAction_conserves (p : Player) (a : PlayerAction) (amt : Int)
    (r : BettingRound) (bb : Int)
    (hv : (processPlayerAction p a amt r bb).isValid = true) :
    (processPlayerAction p a amt r bb).newBet.getD p.currentBet
      + (processPlayerAction p a amt r bb).newChips.getD p.chips
      = p.currentBet + p.chips := by
  unfold processPlayerAction at hv ⊢
  dsimp only at hv ⊢
  cases a
  case fold => simp
  case check =>
    cases hb : (getBettingOptions p r bb).canCheck <;> simp [hb] at hv ⊢
  case call =>
    cases hb : (getBettingOptions p r bb).canCall <;> simp [hb] at hv ⊢
  case bet =>
    cases hb : (getBettingOptions p r bb).canBet <;> simp [hb] at hv ⊢ <;>
      split_ifs at hv ⊢ <;> simp_all
  case raise =>
    cases hb : (getBettingOptions p r bb).canRaise <;> simp [hb] at hv ⊢ <;>
      split_ifs at hv ⊢ <;> simp_all
  case allIn =>
    split_ifs at hv ⊢ <;> simp_all

/-- `applyPlayerAction` conserves the acting player's chips + totalBetThisHand
(on failure the player is untouched). -/
theorem applyPlayerAction_conserves (p : Player) (a : PlayerAction) (amt : Int)
    (r : BettingRound) (bb now : Int) :
    (applyPlayerAction p a amt r bb now).player.chips
      + (applyPlayerAction p a amt r bb now).player.totalBetThisHand
      = p.chips + p.totalBetThisHand := by
  unfold applyPlayerAction
  dsimp only
  split
  · rfl
  · rename_i hvalid
    have hv : (processPlayerAction p a amt r bb).isValid = true := by
      revert hvalid
      cases (processPlayerAction p a amt r bb).isValid <;> simp
    have hcons := processPlayerAction_conserves p a amt r bb hv
    split_ifs <;> simp <;> omega

/-- C4, amended: the conserved in-hand quantity on this code is
Σ chips + Σ totalBetThisHand, not Σ chips + Σ pot.amount — committed chips are
tracked on the players and `state.pots` only materialises at showdown.
(a) `setBlinds` preserves Σ chips + Σ totalBetThisHand over seated players
(the blind seats are distinct, and every committed total is 0 at hand start,
as `startNewHand` guarantees via `resetPlayerBetsForNewHand`);
(b) every `applyPlayerAction` — successful or rejected — preserves the acting
player's chips + totalBetThisHand, and it touches no other player. -/
theorem chip_conservation_amended :
    (∀ s s' : TableState, s.smallBlindIndex ≠ s.bigBlindIndex →
      (∀ p ∈ seatedPlayers s.seats, p.totalBetThisHand = 0) →
      setBlinds s = some s' →
      chipSum s' + betSum s' = chipSum s + betSum s) ∧
    (∀ (p : Player) (a : PlayerAction) (amt : Int) (r : BettingRound) (bb now : Int),
      (applyPlayerAction p a amt r bb now).player.chips
        + (applyPlayerAction p a amt r bb now).player.totalBetThisHand
        = p.chips + p.totalBetThisHand) :=
  ⟨setBlinds_conserves_money, applyPlayerAction_conserves⟩

/-- Witness for the amended C4: posting blinds on the concrete two-player table
keeps Σ chips + Σ totalBetThisHand at 2000, and a concrete bet of 30 keeps the
bettor's chips + totalBetThisHand at 100. -/
theorem chip_conservation_amended_witness :
    (chipSum c4After + betSum c4After = chipSum c4Before + betSum c4Before) ∧
    ((applyPlayerAction (mkPlayer "x" 100 0) PlayerAction.bet 30
        { currentBet := 0, minRaise := 10, lastRaiseAmount := 10, lastRaiserIndex := -1
          actionIndex := -1, isComplete := false, actions := [] } 10 0).player.chips
      + (applyPlayerAction (mkPlayer "x" 100 0) PlayerAction.bet 30
          { currentBet := 0, minRaise := 10, lastRaiseAmount := 10, lastRaiserIndex := -1
            actionIndex := -1, isComplete := false, actions := [] } 10 0).player.totalBetThisHand
      = 100) :=
  ⟨chip_conservation_amended.1 c4Before c4After (by decide) (by decide) (by decide),
    (chip_conservation_amended.2 (mkPlayer "x" 100 0) PlayerAction.bet 30
        { currentBet := 0, minRaise := 10, lastRaiseAmount := 10, lastRaiserIndex := -1
          actionIndex := -1, isComplete := false, actions := [] } 10 0).trans (by decide)⟩

/-- Number of occupied seats (`Table.getPlayerCount`). -/
def getPlayerCount (s : TableState) : Nat :=
  (s.seats.filter (fun seat => !seat.isEmpty)).length

/-- `Table.getActivePlayers`: players of non-empty seats whose `isActive` flag
is set; this is the list the table passes to `isBettingRoundComplete` and
`getNextPlayerToAct`. -/
def getActivePlayers (s : TableState) : List Player :=
  s.seats.filterMap (fun seat =>
    if seat.isEmpty then none
    else
      match seat.player with
      | some p => if p.isActive then some p else none
      | none => none)

/-- The player record `Table.addPlayer` creates for a joining player. -/
def newPlayerRecord (id name : String) (avatarUrl : Option String) (chips : Int)
    (seatIdx : Nat) : Player :=
  { id := id, name := name, avatarUrl := avatarUrl, chips := chips, holeCards := []
    isDealer := false, isSmallBlind := false, isBigBlind := false
    currentBet := 0, totalBetThisHand := 0
    isFolded := false, isAllIn := false, isActive := true
    seatIndex := seatIdx, lastAction := none }

/-- `Table.addPlayer` from `potManager.ts`.  Returns (success, updated state,
whether the source would now call `startNewHand()` — that call fires only when
the player count reaches 2 while the stage is still `waiting_for_players`, so
it never fires during an active hand). -/
def addPlayer (s : TableState) (id name : String) (avatarUrl : Option String)
    (chips : Int) : Bool × TableState × Bool :=
  if getPlayerCount s ≥ s.maxPlayers then (false, s, false)
  else
    match s.seats.findIdx? (·.isEmpty) with
    | none => (false, s, false)
    | some emptySeatIndex =>
      let player := newPlayerRecord id name avatarUrl chips emptySeatIndex
      let s1 := { s with seats := (s.seats.set emptySeatIndex
        { index := emptySeatIndex, player := some player, isEmpty := false }) }
      let s2 :=
        if getPlayerCount s1 = 1 then
          { s1 with
            seats := (s1.seats.set emptySeatIndex
              { index := emptySeatIndex, player := some { player with isDealer := true }
                isEmpty := false })
            dealerIndex := emptySeatIndex }
        else s1
      (true, s2, decide (getPlayerCount s2 ≥ 2 ∧ s.stage = GameStage.waitingForPlayers))

theorem findIdx?_get_spec {α} (p : α → Bool) (l : List α) (i : Nat)
    (h : l.findIdx? p = some i) :
    ∃ x, l.get? i = some x ∧ p x = true := by
  obtain ⟨hlt, hidx⟩ := List.findIdx?_eq_some_iff_findIdx_eq.mp h
  subst hidx
  exact ⟨l.get ⟨_, hlt⟩, List.get?_eq_some.mpr ⟨hlt, rfl⟩, List.findIdx_get⟩

/-- A player seated with the active/unfolded/not-all-in flags of a fresh joiner
is consulted by the betting-round functions: they are in `getActivePlayers`,
`getNextPlayerToAct` does not skip them and stops on them while they have not
acted, and `isBettingRoundComplete` counts them as still needing to act. -/
theorem seated_player_consequences (s2 : TableState) (i : Nat) (P : Player)
    (hget : s2.seats.get? i = some { index := i, player := some P, isEmpty := false })
    (hactive : P.isActive = true) (hfold : P.isFolded = false)
    (hallin : P.isAllIn = false) :
    P ∈ getActivePlayers s2 ∧ skipsSeat P = false ∧
    ∀ round : BettingRound,
      round.actions.all (fun a => !(a.playerId == P.id)) = true →
      needsAction round P = true ∧
      (1 < ((getActivePlayers s2).filter (fun q => q.isActive && !q.isFolded)).length →
        isBettingRoundComplete (getActivePlayers s2) round = false) := by
  have hmemSeat : ({ index := i, player := some P, isEmpty := false } : Seat) ∈ s2.seats :=
    List.get?_mem hget
  have hPmem : P ∈ getActivePlayers s2 := by
    unfold getActivePlayers
    exact List.mem_filterMap.mpr ⟨_, hmemSeat, by simp [hactive]⟩
  have hskip : skipsSeat P = false := by
    unfold skipsSeat
    rw [hactive, hfold, hallin]
    rfl
  refine ⟨hPmem, hskip, ?_⟩
  intro round hall
  have hany : round.actions.any (fun a => a.playerId == P.id) = false := by
    rw [List.any_eq_false]
    intro a ha
    have := List.all_eq_true.mp hall a ha
    simp at this
    simp [this]
  have hneeds : needsAction round P = true := by
    unfold needsAction
    rw [hany]
    rfl
  refine ⟨hneeds, ?_⟩
  intro hlen
  unfold isBettingRoundComplete
  dsimp only
  rw [if_neg (by omega)]
  apply decide_eq_false
  intro h0
  rw [List.length_eq_zero] at h0
  have hPneed : P ∈ ((getActivePlayers s2).filter
      (fun q => q.isActive && !q.isFolded)).filter (fun p =>
        !(round.actions.any (fun a => a.playerId == p.id))
          || (decide (p.currentBet < round.currentBet) && !p.isAllIn)) := by
    refine List.mem_filter.mpr ⟨List.mem_filter.mpr ⟨hPmem, ?_⟩, ?_⟩
    · rw [hactive, hfold]
      rfl
    · rw [hany]
      rfl
  rw [h0] at hPneed
  exact absurd hPneed (List.not_mem_nil _)

/-- C10: adding a player while a hand is live (stage not `waiting_for_players`,
table not full, empty seat available) succeeds without starting a new hand; the
joiner is seated immediately with `isActive = true`, no hole cards, zero
`currentBet` and `totalBetThisHand`, and is therefore part of the player list
`Table` hands to `isBettingRoundComplete` and `getNextPlayerToAct`: with
another active player present and no action yet recorded for the joiner, the
round in progress is not complete, the joiner is not skipped, and they count as
needing to act. -/
theorem addPlayer_during_live_hand (s : TableState) (id name : String)
    (av : Option String) (chips : Int) (i : Nat)
    (hfull : getPlayerCount s < s.maxPlayers)
    (hidx : s.seats.findIdx? (·.isEmpty) = some i)
    (hstage : s.stage ≠ GameStage.waitingForPlayers) :
    (addPlayer s id name av chips).1 = true ∧
    (addPlayer s id name av chips).2.2 = false ∧
    ∃ P : Player,
      ((addPlayer s id name av chips).2.1).seats.get? i
        = some { index := i, player := some P, isEmpty := false } ∧
      P.id = id ∧ P.isActive = true ∧ P.holeCards = [] ∧ P.currentBet = 0 ∧
      P.totalBetThisHand = 0 ∧ P.isFolded = false ∧ P.isAllIn = false ∧
      P ∈ getActivePlayers ((addPlayer s id name av chips).2.1) ∧
      skipsSeat P = false ∧
      ∀ round : BettingRound,
        round.actions.all (fun a => !(a.playerId == id)) = true →
        needsAction round P = true ∧
        (1 < ((getActivePlayers ((addPlayer s id name av chips).2.1)).filter
            (fun q => q.isActive && !q.isFolded)).length →
          isBettingRoundComplete (getActivePlayers ((addPlayer s id name av chips).2.1))
            round = false) := by
  obtain ⟨x0, hget0, _⟩ := findIdx?_get_spec _ _ _ hidx
  unfold addPlayer
  rw [if_neg (not_le.mpr hfull), hidx]
  dsimp only
  split
  · -- first-player branch: the joiner also becomes dealer
    refine ⟨rfl, decide_eq_false (fun h => hstage h.2), ?_⟩
    refine ⟨{ newPlayerRecord id name av chips i with isDealer := true },
      ?_, rfl, rfl, rfl, rfl, rfl, rfl, rfl, ?_⟩
    · dsimp only
      rw [List.set_set, List.get?_set_eq, hget0]
      rfl
    · refine seated_player_consequences _ i _ ?_ rfl rfl rfl
      dsimp only
      rw [List.set_set, List.get?_set_eq, hget0]
      rfl
  · -- regular branch
    refine ⟨rfl, decide_eq_false (fun h => hstage h.2), ?_⟩
    refine ⟨newPlayerRecord id name av chips i, ?_, rfl, rfl, rfl, rfl, rfl, rfl, rfl, ?_⟩
    · dsimp only
      rw [List.get?_set_eq, hget0]
      rfl
    · refine seated_player_consequences _ i _ ?_ rfl rfl rfl
      dsimp only
      rw [List.get?_set_eq, hget0]
      rfl

/-- A three-seat table mid-hand (flop): two seated active players, one empty
seat. -/
def c10Before : TableState :=
  { id := "t", stage := GameStage.flop
    seats := [{ index := 0, player := some (mkPlayer "a" 500 50), isEmpty := false },
              { index := 1, player := some (mkPlayer "b" 450 50), isEmpty := false },
              { index := 2, player := none, isEmpty := true }]
    communityCards := [], pots := []
    dealerIndex := 0, smallBlindIndex := 0, bigBlindIndex := 1
    currentPlayerIndex := 0
    bettingRound := { currentBet := 0, minRaise := 10, lastRaiseAmount := 10
                      lastRaiserIndex := -1, actionIndex := -1, isComplete := false
                      actions := [] }
    handNumber := 3, blinds := { small := 5, big := 10 }, maxPlayers := 3
    isHandActive := true, lastAction := none, winners := none }

/-- A flop betting round in which only player "a" has acted (checked). -/
def c10Round : BettingRound :=
  { currentBet := 0, minRaise := 10, lastRaiseAmount := 10, lastRaiserIndex := -1
    actionIndex := -1, isComplete := false
    actions := [{ playerId := "a", action := PlayerAction.check, amount := 0, timestamp := 7 }] }

/-- Witness for C10: adding "newbie" to the mid-hand table succeeds, starts no
new hand, and the round in progress is no longer complete because the joiner
has not acted. -/
theorem addPlayer_during_live_hand_witness :
    (addPlayer c10Before "newbie" "newbie" none 1000).1 = true ∧
    (addPlayer c10Before "newbie" "newbie" none 1000).2.2 = false ∧
    isBettingRoundComplete (getActivePlayers (addPlayer c10Before "newbie" "newbie" none 1000).2.1)
      c10Round = false := by
  obtain ⟨h1, h2, P, hget, hid, hrest⟩ :=
    addPlayer_during_live_hand c10Before "newbie" "newbie" none 1000 2
      (by decide) (by decide) (by decide)
  obtain ⟨_, _, _, _, _, _, _, _, hround⟩ := hrest
  exact ⟨h1, h2, (hround c10Round (by decide)).2 (by decide)⟩

/-! ## View sanitizer (`src/unnamed/part_002`, engine utils)

The sanitizer's output type (`ClientPlayer`) differs from its input type
(`Player`): `holeCards` may be `null` and a `hasCards` field is added.  To
state idempotence the two are unified in one dynamic player type in which
`holeCards : Option (List Card)` (`none` = JS `null`) and
`hasCards : Option Bool` (`none` = field absent, as on server-side players).
Reading `.length` of a `null` `holeCards` throws a `TypeError` in JS; a
sanitization that throws is modelled as `none`. -/

/-- A player as the sanitizer sees it (server or already-sanitized). -/
structure DynPlayer where
  id : String
  name : String
  avatarUrl : Option String
  chips : Int
  holeCards : Option (List Card)
  isDealer : Bool
  isSmallBlind : Bool
  isBigBlind : Bool
  currentBet : Int
  totalBetThisHand : Int
  isFolded : Bool
  isAllIn : Bool
  isActive : Bool
  seatIndex : Nat
  lastAction : Option PlayerAction
  hasCards : Option Bool
deriving DecidableEq, Repr

/-- A seat holding a dynamic player. -/
structure DynSeat where
  index : Nat
  player : Option DynPlayer
  isEmpty : Bool
deriving DecidableEq, Repr

/-- The table state as the sanitizer sees it. -/
structure DynTableState where
  id : String
  stage : GameStage
  seats : List DynSeat
  communityCards : List Card
  pots : List Pot
  dealerIndex : Nat
  smallBlindIndex : Nat
  bigBlindIndex : Nat
  currentPlayerIndex : Int
  bettingRound : BettingRound
  handNumber : Nat
  blinds : Blinds
  maxPlayers : Nat
  isHandActive : Bool
  lastAction : Option PlayerActionData
  winners : Option (List WinnerEntry)
deriving DecidableEq, Repr

/-- `sanitizePlayerForClient` from the engine utils: keep the player's fields,
null out `holeCards` unless the player is the observer, and set `hasCards` from
`player.holeCards.length` — which throws (modelled as `none`) when `holeCards`
is already `null`. -/
def sanitizePlayerForClient (player : DynPlayer) (clientPlayerId : Option String) :
    Option DynPlayer :=
  match player.holeCards with
  | none => none
  | some cs =>
    some { player with
      holeCards := if clientPlayerId = some player.id then some cs else none
      hasCards := some (decide (cs.length > 0)) }

/-- The seat map of `sanitizeTableStateForClient`: empty seats pass through,
occupied seats get a sanitized player; a throwing sanitization aborts the whole
map. -/
def sanitizeSeats (seats : List DynSeat) (clientPlayerId : Option String) :
    Option (List DynSeat) :=
  match seats with
  | [] => some []
  | seat :: rest =>
    let q : Option (Option DynPlayer) :=
      match seat.player with
      | some p => (sanitizePlayerForClient p clientPlayerId).map some
      | none => some none
    match q, sanitizeSeats rest clientPlayerId with
    | some q', some rest' =>
      some ({ index := seat.index, player := q', isEmpty := seat.isEmpty } :: rest')
    | _, _ => none

/-- `sanitizeTableStateForClient` from the engine utils: spread the state,
replacing each seat's player with the sanitized one. -/
def sanitizeTableStateForClient (tableState : DynTableState)
    (clientPlayerId : Option String) : Option DynTableState :=
  (sanitizeSeats tableState.seats clientPlayerId).map
    (fun seats' => { tableState with seats := seats' })

/-- What the claimed sanitization does to one player: all ordinary fields pass
through; `hasCards` records whether the player holds cards; the observer keeps
their hole cards verbatim, everyone else's are hidden. -/
def sanitizedPlayerMatches (obs : Option String) (p q : DynPlayer) : Prop :=
  q.id = p.id ∧ q.name = p.name ∧ q.avatarUrl = p.avatarUrl ∧ q.chips = p.chips ∧
  q.isDealer = p.isDealer ∧ q.isSmallBlind = p.isSmallBlind ∧ q.isBigBlind = p.isBigBlind ∧
  q.currentBet = p.currentBet ∧ q.totalBetThisHand = p.totalBetThisHand ∧
  q.isFolded = p.isFolded ∧ q.isAllIn = p.isAllIn ∧ q.isActive = p.isActive ∧
  q.seatIndex = p.seatIndex ∧ q.lastAction = p.lastAction ∧
  ∃ cs, p.holeCards = some cs ∧ q.hasCards = some (decide (cs.length > 0)) ∧
    (obs = some p.id → q.holeCards = some cs) ∧
    (obs ≠ some p.id → q.holeCards = none)

theorem sanitizeSeats_spec (seats : List DynSeat) (obs : Option String)
    (hserver : ∀ seat ∈ seats, ∀ p, seat.player = some p → p.holeCards.isSome = true) :
    ∃ seats', sanitizeSeats seats obs = some seats' ∧
      seats'.length = seats.length ∧
      ∀ j seat seat', seats.get? j = some seat → seats'.get? j = some seat' →
        seat'.index = seat.index ∧ seat'.isEmpty = seat.isEmpty ∧
        (seat.player = none → seat'.player = none) ∧
        (∀ p, seat.player = some p →
          ∃ q, seat'.player = some q ∧ sanitizedPlayerMatches obs p q) := by
  induction seats with
  | nil =>
    refine ⟨[], rfl, rfl, ?_⟩
    intro j seat seat' h1
    simp at h1
  | cons seat rest ih =>
    obtain ⟨rest', hrest, hlen, hpkg⟩ :=
      ih (fun st hst p hp => hserver st (List.mem_cons_of_mem _ hst) p hp)
    cases hp : seat.player with
    | none =>
      refine ⟨{ index := seat.index, player := none, isEmpty := seat.isEmpty } :: rest',
        ?_, by simp [hlen], ?_⟩
      · simp [sanitizeSeats, hp, hrest]
      · intro j s1 s2 h1 h2
        cases j with
        | zero =>
          simp only [List.get?_cons_zero, Option.some.injEq] at h1 h2
          subst h1
          subst h2
          refine ⟨rfl, rfl, fun _ => rfl, ?_⟩
          intro p hp2
          rw [hp] at hp2
          cases hp2
        | succ n =>
          exact hpkg n s1 s2 (by simpa using h1) (by simpa using h2)
    | some p =>
      have hcs := hserver seat (by simp) p hp
      obtain ⟨cs, hcsEq⟩ := Option.isSome_iff_exists.mp hcs
      refine ⟨{ index := seat.index
                player := some { p with
                  holeCards := if obs = some p.id then some cs else none
                  hasCards := some (decide (cs.length > 0)) }
                isEmpty := seat.isEmpty } :: rest', ?_, by simp [hlen], ?_⟩
      · simp [sanitizeSeats, hp, hrest, sanitizePlayerForClient, hcsEq]
      · intro j s1 s2 h1 h2
        cases j with
        | zero =>
          simp only [List.get?_cons_zero, Option.some.injEq] at h1 h2
          subst h1
          subst h2
          refine ⟨rfl, rfl, ?_, ?_⟩
          · intro hnone
            rw [hp] at hnone
            cases hnone
          · intro p2 hp2
            rw [hp] at hp2
            injection hp2 with hpe
            subst hpe
            refine ⟨_, rfl, rfl, rfl, rfl, rfl, rfl, rfl, rfl, rfl, rfl, rfl, rfl, rfl,
              rfl, rfl, cs, hcsEq, rfl, ?_, ?_⟩
            · intro hobs
              simp [hobs]
            · intro hobs
              simp [hobs]
        | succ n =>
          exact hpkg n s1 s2 (by simpa using h1) (by simpa using h2)

/-- C7: on a server state (every seated player's hole cards present), the
sanitizer succeeds and returns a state whose non-seat fields are passed through
unchanged, whose seat indices and emptiness are preserved, and whose seated
players keep all ordinary fields while `holeCards` is hidden for every player
other than the observer (in particular for everyone when no observer id is
supplied), `hasCards` records only whether the player holds cards, and the
observer's own hole cards are returned verbatim. -/
theorem sanitizeTableState_spec (s : DynTableState) (obs : Option String)
    (hserver : ∀ seat ∈ s.seats, ∀ p, seat.player = some p → p.holeCards.isSome = true) :
    ∃ s', sanitizeTableStateForClient s obs = some s' ∧
      s'.id = s.id ∧ s'.stage = s.stage ∧ s'.communityCards = s.communityCards ∧
      s'.pots = s.pots ∧ s'.dealerIndex = s.dealerIndex ∧
      s'.smallBlindIndex = s.smallBlindIndex ∧ s'.bigBlindIndex = s.bigBlindIndex ∧
      s'.currentPlayerIndex = s.currentPlayerIndex ∧ s'.bettingRound = s.bettingRound ∧
      s'.handNumber = s.handNumber ∧ s'.blinds = s.blinds ∧ s'.maxPlayers = s.maxPlayers ∧
      s'.isHandActive = s.isHandActive ∧ s'.lastAction = s.lastAction ∧
      s'.winners = s.winners ∧
      s'.seats.length = s.seats.length ∧
      ∀ j seat seat', s.seats.get? j = some seat → s'.seats.get? j = some seat' →
        seat'.index = seat.index ∧ seat'.isEmpty = seat.isEmpty ∧
        (seat.player = none → seat'.player = none) ∧
        (∀ p, seat.player = some p →
          ∃ q, seat'.player = some q ∧ sanitizedPlayerMatches obs p q) := by
  obtain ⟨seats', hseats, hlen, hpkg⟩ := sanitizeSeats_spec s.seats obs hserver
  refine ⟨{ s with seats := seats' }, ?_, rfl, rfl, rfl, rfl, rfl, rfl, rfl, rfl, rfl,
    rfl, rfl, rfl, rfl, rfl, rfl, hlen, hpkg⟩
  unfold sanitizeTableStateForClient
  rw [hseats]
  rfl

/-- The server-side shape of a seated player for sanitizer scenarios. -/
def mkDynPlayer (id : String) (cards : List Card) : DynPlayer :=
  { id := id, name := id, avatarUrl := none, chips := 100, holeCards := some cards
    isDealer := false, isSmallBlind := false, isBigBlind := false
    currentBet := 0, totalBetThisHand := 0, isFolded := false, isAllIn := false
    isActive := true, seatIndex := 0, lastAction := none, hasCards := none }

/-- Shared non-seat fields for sanitizer scenario states. -/
def mkDynState (seats : List DynSeat) : DynTableState :=
  { id := "t", stage := GameStage.flop, seats := seats
    communityCards := [], pots := []
    dealerIndex := 0, smallBlindIndex := 0, bigBlindIndex := 1
    currentPlayerIndex := 0
    bettingRound := { currentBet := 0, minRaise := 10, lastRaiseAmount := 10
                      lastRaiserIndex := -1, actionIndex := -1, isComplete := false
                      actions := [] }
    handNumber := 1, blinds := { small := 5, big := 10 }, maxPlayers := 3
    isHandActive := true, lastAction := none, winners := none }

/-- A server state: the observer "obs" and another player "villain", each with
two hole cards, plus an empty seat. -/
def c7State : DynTableState :=
  mkDynState
    [{ index := 0, player := some (mkDynPlayer "obs" [⟨.spades, .rA⟩, ⟨.hearts, .rK⟩])
       isEmpty := false },
     { index := 1, player := some (mkDynPlayer "villain" [⟨.clubs, .r7⟩, ⟨.diamonds, .r2⟩])
       isEmpty := false },
     { index := 2, player := none, isEmpty := true }]

/-- Witness for C7: sanitizing the concrete two-player state for observer "obs"
succeeds, and direct evaluation shows the villain's cards hidden with
`hasCards` set while the observer's cards survive verbatim. -/
theorem sanitizeTableState_spec_witness :
    (sanitizeTableStateForClient c7State (some "obs")).isSome = true ∧
    ((((sanitizeTableStateForClient c7State (some "obs")).getD c7State).seats.getD 1
        { index := 1, player := none, isEmpty := true }).player.getD
          (mkDynPlayer "x" [])).holeCards = none ∧
    ((((sanitizeTableStateForClient c7State (some "obs")).getD c7State).seats.getD 1
        { index := 1, player := none, isEmpty := true }).player.getD
          (mkDynPlayer "x" [])).hasCards = some true ∧
    ((((sanitizeTableStateForClient c7State (some "obs")).getD c7State).seats.getD 0
        { index := 0, player := none, isEmpty := true }).player.getD
          (mkDynPlayer "x" [])).holeCards = some [⟨.spades, .rA⟩, ⟨.hearts, .rK⟩] := by
  have h := sanitizeTableState_spec c7State (some "obs") (by decide)
  obtain ⟨s', hs', _⟩ := h
  refine ⟨by rw [hs']; rfl, by decide, by decide, by decide⟩

theorem sanitizeSeats_idem (seats : List DynSeat) (obs : Option String)
    (h : ∀ seat ∈ seats, ∀ p, seat.player = some p →
        obs = some p.id ∧ p.holeCards.isSome = true) :
    ∃ seats', sanitizeSeats seats obs = some seats' ∧
      sanitizeSeats seats' obs = some seats' := by
  induction seats with
  | nil => exact ⟨[], rfl, rfl⟩
  | cons seat rest ih =>
    obtain ⟨rest', h1, h2⟩ := ih (fun st hst => h st (List.mem_cons_of_mem _ hst))
    cases hp : seat.player with
    | none =>
      refine ⟨{ index := seat.index, player := none, isEmpty := seat.isEmpty } :: rest',
        ?_, ?_⟩
      · simp [sanitizeSeats, hp, h1]
      · simp [sanitizeSeats, h2]
    | some p =>
      obtain ⟨hobs, hcs⟩ := h seat (by simp) p hp
      obtain ⟨cs, hcsEq⟩ := Option.isSome_iff_exists.mp hcs
      subst hobs
      refine ⟨{ index := seat.index
                player := some { p with
                  holeCards := some cs
                  hasCards := some (decide (cs.length > 0)) }
                isEmpty := seat.isEmpty } :: rest', ?_, ?_⟩
      · simp [sanitizeSeats, hp, h1, sanitizePlayerForClient, hcsEq]
      · simp [sanitizeSeats, h2, sanitizePlayerForClient]

/-- C8, amended: double sanitization agrees with single sanitization only on
states in which every seated player is the observer (with cards present); the
law as claimed fails in general because the second application reads `.length`
of the `null` hole cards of any other seated player and throws. -/
theorem sanitize_idempotent_for_observer_only (s : DynTableState) (obs : Option String)
    (h : ∀ seat ∈ s.seats, ∀ p, seat.player = some p →
        obs = some p.id ∧ p.holeCards.isSome = true) :
    (sanitizeTableStateForClient s obs).bind (fun t => sanitizeTableStateForClient t obs)
      = sanitizeTableStateForClient s obs := by
  obtain ⟨seats', h1, h2⟩ := sanitizeSeats_idem s.seats obs h
  unfold sanitizeTableStateForClient
  rw [h1]
  simp [h2]

/-- A state with a single seated player who is not the observer. -/
def c8State : DynTableState :=
  mkDynState
    [{ index := 0, player := some (mkDynPlayer "p1" [⟨.spades, .rA⟩, ⟨.hearts, .rK⟩])
       isEmpty := false }]

/-- Counterexample to C8 as stated: for the one-villain state, the first
sanitization succeeds (hiding the villain's cards), but applying the sanitizer
a second time fails — it reads `.length` of the now-null hole cards and throws
— so sanitize ∘ sanitize differs from sanitize. -/
theorem sanitize_not_idempotent :
    (sanitizeTableStateForClient c8State (some "obs")).isSome = true ∧
    (sanitizeTableStateForClient c8State (some "obs")).bind
        (fun t => sanitizeTableStateForClient t (some "obs"))
      ≠ sanitizeTableStateForClient c8State (some "obs") := by
  decide

/-- A state whose only seated player is the observer "me". -/
def c8OwnState : DynTableState :=
  mkDynState
    [{ index := 0, player := some (mkDynPlayer "me" [⟨.spades, .rA⟩, ⟨.hearts, .rK⟩])
       isEmpty := false },
     { index := 1, player := none, isEmpty := true }]

/-- Witness for the amended C8: for a state whose only seated player is the
observer, double sanitization equals single sanitization. -/
theorem sanitize_idempotent_for_observer_only_witness :
    (sanitizeTableStateForClient c8OwnState (some "me")).bind
        (fun t => sanitizeTableStateForClient t (some "me"))
      = sanitizeTableStateForClient c8OwnState (some "me") :=
  sanitize_idempotent_for_observer_only c8OwnState (some "me") (by decide)

end PokerEngine
